import Mathlib

/-!
Points ledger and tournament pooling (package `core`).

A shallow embedding of `core/player.go` and `core/tournament.go`.

* Go `int64` values are integers kept in the range `[-2^63, 2^63)`; every
  `+`, `-`, `++`, `--` of the source is followed by `wrap64`, the two's
  complement wrap-around of the Go language.
* Go `int` (the count `n` of `splitPoints`, the `len` of a slice) is an integer.
* A `map[string]*Player` is an association list from keys to player records in
  which a key is looked up at its first occurrence; every key owns its own,
  non-nil player record.
* A function returning `(*T, error)` returns `Except CoreError T`; a method that
  mutates its receiver or its map argument and returns `error` returns the
  error (if any) together with the state after the call.
-/

namespace Sts

/-! ## Machine integers -/

/-- Smallest `int64`. -/
def minInt64 : Int := -9223372036854775808

/-- Largest `int64`. -/
def maxInt64 : Int := 9223372036854775807

/-- Membership in the range of `int64`. -/
def isInt64 (x : Int) : Prop := -9223372036854775808 ≤ x ∧ x ≤ 9223372036854775807

instance (x : Int) : Decidable (isInt64 x) := by
  unfold isInt64; exact inferInstance

/-- Two's complement wrap-around of an integer into the range of `int64`. -/
def wrap64 (x : Int) : Int :=
  (x + 9223372036854775808) % 18446744073709551616 - 9223372036854775808

/-! ## Errors (`core/errors.go`) -/

/-- The sentinel errors of package `core`. -/
inductive CoreError where
  | ErrPlayerNotFound
  | ErrTournamentNotFound
  | ErrTournPlayerNotFound
  | ErrNegativePlayerBalance
  | ErrDuplicateTournament
  | ErrDuplicateTournPlayer
  | ErrTournamentFinished
  | ErrInvalidTournamentDeposit
  | ErrInvalidTournamentPrize
  | ErrTooManyBackers
  | ErrDuplicateBackers
  deriving DecidableEq, Repr

open CoreError

/-! ## Data model -/

/-- Player is an object for player account (`core/player.go`). -/
structure Player where
  PlayerID : String
  Balance : Int
  deriving DecidableEq, Repr

/-- The `Tournament` struct. -/
structure Tournament where
  ID : Int
  EntryDeposit : Int
  Active : Bool
  deriving DecidableEq, Repr

/-- The `Backer` struct. -/
structure Backer where
  PlayerID : String
  Points : Int
  deriving DecidableEq, Repr

/-- The `TournPlayer` struct (a tournament entry). -/
structure TournPlayer where
  TournamentID : Int
  PlayerID : String
  Fee : Int
  Backers : List Backer
  deriving DecidableEq, Repr

/-- The `TournWinner` struct (a tournament result). -/
structure TournWinner where
  TournamentID : Int
  PlayerID : String
  Prize : Int
  Backers : List Backer
  deriving DecidableEq, Repr

/-- A `map[string]*Player`: the list of its key/record pairs.  The keys of a Go
map are unique, so a list stands for a map when its keys are pairwise distinct
(`PlayerMap.WF`). -/
abbrev PlayerMap := List (String × Player)

/-- The keys of a map are pairwise distinct. -/
def PlayerMap.WF (m : PlayerMap) : Prop := (m.map Prod.fst).Nodup

instance (m : PlayerMap) : Decidable m.WF := by
  unfold PlayerMap.WF; exact inferInstance

/-- The two-valued index expression `p, ok := players[k]`. -/
def PlayerMap.lookup (k : String) : PlayerMap → Option Player
  | [] => none
  | (k', p) :: m => if k' = k then some p else PlayerMap.lookup k m

/-- The statement `players[k].Balance = f(players[k].Balance)`: the record
stored under key `k` gets its balance rewritten, every other record and every
key stays.  (The source only executes it for keys it has found in the map.) -/
def PlayerMap.adjust (k : String) (f : Int → Int) (m : PlayerMap) : PlayerMap :=
  m.map (fun e => if e.1 = k then (e.1, { e.2 with Balance := f e.2.Balance }) else e)

/-! ## `hasDuplicates` and `splitPoints` -/

/-- The loop of `hasDuplicates`; `cache` holds the strings seen so far. -/
def hasDuplicatesLoop (cache : List String) : List String → Bool
  | [] => false
  | s :: ss => if s ∈ cache then true else hasDuplicatesLoop (s :: cache) ss

/-- Go `hasDuplicates`. -/
def hasDuplicates (ss : List String) : Bool :=
  hasDuplicatesLoop [] ss

/-- The `for i := range parts` loop of `splitPoints`: `k` positions remain to
be filled and `r` is the current value of the remainder variable. -/
def splitLoop (q : Int) : Int → Nat → List Int
  | _, 0 => []
  | r, k + 1 =>
    if 0 < r then wrap64 (q + 1) :: splitLoop q (wrap64 (r - 1)) k
    else if r = 0 then q :: splitLoop q r k
    else wrap64 (q - 1) :: splitLoop q (wrap64 (r + 1)) k

/-- Go `splitPoints(points int64, n int) []int64`; `/` and `%` of Go truncate
toward zero. -/
def splitPoints (points : Int) (n : Int) : List Int :=
  if n ≤ 0 then []
  else splitLoop (wrap64 (Int.tdiv points n)) (Int.tmod points n) n.toNat

/-! ## Player ledger (`core/player.go`) -/

/-- Go `(*Player).AddBalance`: the error returned (if any) and the player
after the call. -/
def Player.AddBalance (p : Player) (delta : Int) : Option CoreError × Player :=
  if wrap64 (p.Balance + delta) < 0 then (some ErrNegativePlayerBalance, p)
  else (none, { p with Balance := wrap64 (p.Balance + delta) })

/-! ## Tournaments (`core/tournament.go`) -/

/-- Go `NewTournament`. -/
def NewTournament (tournamentID : Int) (deposit : Int) : Except CoreError Tournament :=
  if deposit ≤ 0 then .error ErrInvalidTournamentDeposit
  else .ok { ID := tournamentID, EntryDeposit := deposit, Active := true }

/-- Go `(*Tournament).NewTournPlayer`.  The source never assigns through the
receiver, so the tournament is not part of the result.  The loop
`for i, pts := range parts` pairs `ids[i]` with `parts[i]`; `parts` is never
longer than `ids`. -/
def Tournament.NewTournPlayer (t : Tournament) (playerID : String)
    (backerIDs : List String) : Except CoreError TournPlayer :=
  let ids := playerID :: backerIDs
  if t.EntryDeposit < (ids.length : Int) then .error ErrTooManyBackers
  else if !t.Active then .error ErrTournamentFinished
  else if hasDuplicates ids then .error ErrDuplicateBackers
  else
    let parts := splitPoints t.EntryDeposit (ids.length : Int)
    .ok { TournamentID := t.ID
          PlayerID := playerID
          Fee := t.EntryDeposit
          Backers := List.zipWith (fun id pts => { PlayerID := id, Points := pts }) ids parts }

/-- Go `(*Tournament).MarkFinished`: the error returned (if any) and the
tournament after the call. -/
def Tournament.MarkFinished (t : Tournament) : Option CoreError × Tournament :=
  if !t.Active then (some ErrTournamentFinished, t)
  else (none, { t with Active := false })

/-- First loop of `DeductDeposit`: the error at the first backer that is
missing from the map or whose balance is below its points. -/
def deductCheck (players : PlayerMap) : List Backer → Option CoreError
  | [] => none
  | b :: bs =>
    match players.lookup b.PlayerID with
    | none => some ErrPlayerNotFound
    | some p =>
      if p.Balance < b.Points then some ErrNegativePlayerBalance
      else deductCheck players bs

/-- Second loop of `DeductDeposit`: `players[b.PlayerID].Balance -= b.Points`
for every backer in order. -/
def deductApply : List Backer → PlayerMap → PlayerMap
  | [], players => players
  | b :: bs, players =>
    deductApply bs (players.adjust b.PlayerID (fun bal => wrap64 (bal - b.Points)))

/-- Go `(*TournPlayer).DeductDeposit`: the error returned (if any) and the
player map after the call. -/
def TournPlayer.DeductDeposit (tp : TournPlayer) (players : PlayerMap) :
    Option CoreError × PlayerMap :=
  match deductCheck players tp.Backers with
  | some e => (some e, players)
  | none => (none, deductApply tp.Backers players)

/-- Go `(*TournPlayer).NewTournWinner`.  The loop pairs `tp.Backers[i].PlayerID`
with `parts[i]`; `parts` is never longer than `tp.Backers`. -/
def TournPlayer.NewTournWinner (tp : TournPlayer) (prize : Int) :
    Except CoreError TournWinner :=
  if prize < 0 then .error ErrInvalidTournamentPrize
  else
    let parts := splitPoints prize (tp.Backers.length : Int)
    .ok { TournamentID := tp.TournamentID
          PlayerID := tp.PlayerID
          Prize := prize
          Backers := List.zipWith (fun (b : Backer) pts => { PlayerID := b.PlayerID, Points := pts })
            tp.Backers parts }

/-- First loop of `PayoutPrize`: `ErrPlayerNotFound` at the first backer that
is missing from the map. -/
def payoutCheck (players : PlayerMap) : List Backer → Option CoreError
  | [] => none
  | b :: bs =>
    match players.lookup b.PlayerID with
    | none => some ErrPlayerNotFound
    | some _ => payoutCheck players bs

/-- Second loop of `PayoutPrize`: `players[b.PlayerID].Balance += b.Points`
for every backer in order. -/
def payoutApply : List Backer → PlayerMap → PlayerMap
  | [], players => players
  | b :: bs, players =>
    payoutApply bs (players.adjust b.PlayerID (fun bal => wrap64 (bal + b.Points)))

/-- Go `(*TournWinner).PayoutPrize`: the error returned (if any) and the
player map after the call. -/
def TournWinner.PayoutPrize (tw : TournWinner) (players : PlayerMap) :
    Option CoreError × PlayerMap :=
  match payoutCheck players tw.Backers with
  | some e => (some e, players)
  | none => (none, payoutApply tw.Backers players)

/-! ## Derived notions used in the statements -/

/-- Sum of the points of a backer list. -/
def pointsSum (bs : List Backer) : Int := (bs.map Backer.Points).sum

/-- Sum of the points of the backers of `bs` whose player is `k`. -/
def pointsOf (k : String) (bs : List Backer) : Int :=
  pointsSum (bs.filter (fun b => b.PlayerID = k))

/-- The player IDs of a backer list, in order. -/
def backerIDsOf (bs : List Backer) : List String := bs.map Backer.PlayerID

/-- The balance a record under key `k` holds after `bs` has been paid out to a
map in which it held `bal`: untouched when `k` backs nothing, otherwise the
wrap-around sum of `bal` and all points of `k`. -/
def creditBal (k : String) (bs : List Backer) (bal : Int) : Int :=
  if k ∈ backerIDsOf bs then wrap64 (bal + pointsOf k bs) else bal

/-- The balance a record under key `k` holds after `bs` has been deducted from
a map in which it held `bal`. -/
def debitBal (k : String) (bs : List Backer) (bal : Int) : Int :=
  if k ∈ backerIDsOf bs then wrap64 (bal - pointsOf k bs) else bal

/-- A backer that stops `DeductDeposit`: absent from the map, or with a balance
smaller than its points. -/
def offends (players : PlayerMap) (b : Backer) : Prop :=
  players.lookup b.PlayerID = none ∨
    ∃ p, players.lookup b.PlayerID = some p ∧ p.Balance < b.Points

/-! ## Reference definition of the split -/

/-- The split as the specification words it: empty for `n ≤ 0`; otherwise, with
`q` and `r` the truncating quotient and remainder of `T` by `n`, position `i`
(counted from 0) holds `q + 1` when `r > 0` and `i < r`, `q - 1` when `r < 0`
and `i < |r|`, and `q` otherwise. -/
def splitPointsRef (T : Int) (n : Int) : List Int :=
  if n ≤ 0 then []
  else (List.range n.toNat).map (fun (i : Nat) =>
    if 0 < T.tmod n ∧ (i : Int) < T.tmod n then T.tdiv n + 1
    else if T.tmod n < 0 ∧ (i : Int) < |T.tmod n| then T.tdiv n - 1
    else T.tdiv n)

/-! ## Tournament operations as a transition system -/

/-- The operations of `core/tournament.go` that take a tournament as receiver. -/
inductive TournOp where
  | markFinished
  | newTournPlayer (playerID : String) (backerIDs : List String)
  deriving DecidableEq, Repr

/-- The tournament after one operation: `MarkFinished` may assign `Active`,
`NewTournPlayer` never assigns through its receiver. -/
def Tournament.step (t : Tournament) : TournOp → Tournament
  | .markFinished => (t.MarkFinished).2
  | .newTournPlayer _ _ => t

/-- The tournament after a sequence of operations. -/
def Tournament.run (t : Tournament) (ops : List TournOp) : Tournament :=
  ops.foldl Tournament.step t

/-! ## The store (`db/`) and the workflows (`app.go`)

The relational store is its four tables.  A query returns the rows that match;
an insert of a row whose primary key is present fails with MySQL error 1062,
which the `db` package turns into `ErrAlreadyExists`.  The store is taken to be
reachable: a statement fails for no other reason than the ones written here. -/

/-- The errors the `db` package returns: its two sentinels, and anything else. -/
inductive DbError where
  | ErrNotFound
  | ErrAlreadyExists
  | other (msg : String)
  deriving DecidableEq, Repr

/-- A Go `error` value met in `app.go` before it is wrapped. -/
inductive GoError where
  | core (e : CoreError)
  | db (e : DbError)
  deriving DecidableEq, Repr

/-- The result of `errors.WithMessage(cause, msg)` for a non-nil `cause`. -/
structure WrappedError where
  cause : GoError
  msg : String
  deriving DecidableEq, Repr

/-- Library function `errors.WithMessage` of `github.com/pkg/errors`: it
annotates an error with a message, and returns nil when the error is nil. -/
def errorsWithMessage (err : Option GoError) (msg : String) : Option WrappedError :=
  err.map (fun e => { cause := e, msg := msg })

/-- The `*apiResponse` values the workflows build: `respOK()` and
`respConflict(err.Error())`. -/
inductive Response where
  | ok
  | conflict (e : CoreError)
  deriving DecidableEq, Repr

/-- What a workflow returns: `(*apiResponse, error)`, either of which may be nil. -/
abbrev Reply := Option Response × Option WrappedError

/-- The constant `TextMaxLength` of `db/main.go`. -/
def TextMaxLength : Nat := 65535

/-- The tables of the store; `player_id`, `tournament_id` and the pair
`(tournament_id, player_id)` are the primary keys. -/
structure Store where
  players : List Player
  tournaments : List Tournament
  entries : List TournPlayer
  winners : List TournWinner
  deriving DecidableEq, Repr

/-- Go `db.TournamentGet` and `db.TournamentGetForUpdate`. -/
def Store.TournamentGet (s : Store) (tournamentID : Int) : Except DbError Tournament :=
  match s.tournaments.find? (fun t => t.ID = tournamentID) with
  | none => .error .ErrNotFound
  | some t => .ok t

/-- Go `db.PlayerSelectForUpdate`: the rows whose `player_id` is one of
`playerIDs`, in table order, as a map keyed by `PlayerID`. -/
def Store.PlayerSelectForUpdate (s : Store) (playerIDs : List String) : PlayerMap :=
  (s.players.filter (fun p => p.PlayerID ∈ playerIDs)).map (fun p => (p.PlayerID, p))

/-- Go `db.PlayerUpdate`: set the balance of the row of `player.PlayerID`. -/
def Store.PlayerUpdate (s : Store) (player : Player) : Store :=
  { s with players := s.players.map (fun p =>
      if p.PlayerID = player.PlayerID then { p with Balance := player.Balance } else p) }

/-- Go `db.TournPlayerGet`. -/
def Store.TournPlayerGet (s : Store) (tournamentID : Int) (playerID : String) :
    Except DbError TournPlayer :=
  match s.entries.find? (fun e => e.TournamentID = tournamentID ∧ e.PlayerID = playerID) with
  | none => .error .ErrNotFound
  | some tp => .ok tp

/-- Go `db.TournPlayerInsert`; `blobLen` is the length of the JSON encoding of a
backer list (`len(json.Marshal(&tp.Backers))`). -/
def Store.TournPlayerInsert (blobLen : List Backer → Nat) (s : Store) (tp : TournPlayer) :
    Except DbError Store :=
  if blobLen tp.Backers > TextMaxLength then .error (.other "db: backers slice is too big")
  else if s.entries.any (fun e => e.TournamentID = tp.TournamentID ∧ e.PlayerID = tp.PlayerID)
  then .error .ErrAlreadyExists
  else .ok { s with entries := s.entries ++ [tp] }

/-- Go `(*application).announceTournament`; `insert` is the outcome of
`db.TournamentInsert` (nil, `ErrAlreadyExists`, or another error).  The variable
`err` holds the error of `NewTournament`, which is nil once the first `if` is
passed; the `switch` does not assign it. -/
def announceTournament (insert : Tournament → Option DbError) (tournamentID : Int)
    (deposit : Int) : Reply :=
  match NewTournament tournamentID deposit with
  | .error e => (some (.conflict e), none)
  | .ok tournament =>
    let err : Option GoError := none
    match insert tournament with
    | none => (some .ok, none)
    | some .ErrAlreadyExists => (some (.conflict ErrDuplicateTournament), none)
    | some _ => (none, errorsWithMessage err "inserting tournament")

/-- Go `(*application).joinTournament`: the reply and the store after the call.
Every `return` before `tx.Commit()` rolls the transaction back. -/
def joinTournament (blobLen : List Backer → Nat) (s : Store) (tournamentID : Int)
    (playerID : String) (backerIDs : List String) : Reply × Store :=
  match s.TournamentGet tournamentID with
  | .error .ErrNotFound => ((some (.conflict ErrTournamentNotFound), none), s)
  | .error e => ((none, errorsWithMessage (some (.db e)) "getting tournament"), s)
  | .ok tournament =>
    let playerIDs := playerID :: backerIDs
    let players := s.PlayerSelectForUpdate playerIDs
    match tournament.NewTournPlayer playerID backerIDs with
    | .error e => ((some (.conflict e), none), s)
    | .ok tp =>
      match tp.DeductDeposit players with
      | (some e, _) => ((some (.conflict e), none), s)
      | (none, players) =>
        match s.TournPlayerInsert blobLen tp with
        | .error .ErrAlreadyExists => ((some (.conflict ErrDuplicateTournPlayer), none), s)
        | .error e =>
          ((none, errorsWithMessage (some (.db e)) "inserting tournament player"), s)
        | .ok s1 =>
          ((some .ok, none), players.foldl (fun st acc => st.PlayerUpdate acc.2) s1)

/-- The loop over `winners` in `resultTroutnament`, iterated in the order of the
list: `tws` and `playerIDs` are the two slices being appended to. -/
def collectWinners (s : Store) (tournamentID : Int) :
    List (String × Int) → List TournWinner → List String →
    Except Reply (List TournWinner × List String)
  | [], tws, playerIDs => .ok (tws, playerIDs)
  | (playerID, prize) :: rest, tws, playerIDs =>
    match s.TournPlayerGet tournamentID playerID with
    | .error .ErrNotFound => .error (some (.conflict ErrTournPlayerNotFound), none)
    | .error e => .error (none, errorsWithMessage (some (.db e)) "getting tournament player")
    | .ok tp =>
      match tp.NewTournWinner prize with
      | .error e => .error (some (.conflict e), none)
      | .ok tw =>
        collectWinners s tournamentID rest (tws ++ [tw]) (playerIDs ++ backerIDsOf tw.Backers)

/-- The slice `playerIDs` that `resultTroutnament` hands to
`db.PlayerSelectForUpdate`, when the workflow gets that far; `winners` lists the
map in the order the `range` loop visits it. -/
def resultFetchIDs (s : Store) (tournamentID : Int) (winners : List (String × Int)) :
    Option (List String) :=
  match s.TournamentGet tournamentID with
  | .error _ => none
  | .ok tournament =>
    match tournament.MarkFinished with
    | (some _, _) => none
    | (none, _) =>
      match collectWinners s tournamentID winners [] [] with
      | .error _ => none
      | .ok (_, playerIDs) => some playerIDs

/-- The backer IDs of the entries of the named winners, winner after winner in
the order of the list (nothing for a winner without an entry). -/
def winnersBackerIDs (s : Store) (tournamentID : Int) : List (String × Int) → List String
  | [] => []
  | (playerID, _) :: rest =>
    (match s.TournPlayerGet tournamentID playerID with
      | .ok tp => backerIDsOf tp.Backers
      | .error _ => []) ++ winnersBackerIDs s tournamentID rest

/-- Ascending order of player IDs, as `sort.StringSlice` would leave them: no
later ID is smaller than an earlier one in the lexicographic order of strings. -/
def ascendingIDs (ids : List String) : Prop :=
  ids.Pairwise (fun a b => ¬ b.data < a.data)

instance (ids : List String) : Decidable (ascendingIDs ids) := by
  unfold ascendingIDs; exact inferInstance


/-- The sum of all balances held in a player map. -/
def balanceSum (players : PlayerMap) : Int := (players.map (fun e => e.2.Balance)).sum

/-! ## Arithmetic facts -/

theorem wrap64_eq {x : Int} (h : isInt64 x) : wrap64 x = x := by
  unfold isInt64 at h
  unfold wrap64
  omega

theorem wrap64_isInt64 (x : Int) : isInt64 (wrap64 x) := by
  unfold isInt64 wrap64
  omega

theorem wrap64_add_left (a b : Int) : wrap64 (wrap64 a + b) = wrap64 (a + b) := by
  unfold wrap64
  omega

/-- Truncating division by a positive divisor: the quotient identity and the
sign of quotient and remainder. -/
theorem tdiv_tmod_spec (T n : Int) (hn : 0 < n) :
    n * T.tdiv n + T.tmod n = T ∧
    (0 ≤ T → 0 ≤ T.tdiv n ∧ 0 ≤ T.tmod n ∧ T.tmod n < n) ∧
    (T < 0 → T.tdiv n ≤ 0 ∧ T.tmod n ≤ 0 ∧ -n < T.tmod n) := by
  refine ⟨Int.tdiv_add_tmod T n, ?_, ?_⟩
  · intro hT
    exact ⟨Int.tdiv_nonneg hT (le_of_lt hn), Int.tmod_nonneg n hT, Int.tmod_lt_of_pos T hn⟩
  · intro hT
    have h1 : 0 ≤ (-T).tdiv n := Int.tdiv_nonneg (by omega) (le_of_lt hn)
    have h2 : (-T).tdiv n = -(T.tdiv n) := Int.neg_tdiv T n
    have h3 := Int.tdiv_add_tmod T n
    have h4 := Int.tdiv_add_tmod (-T) n
    have h5 : 0 ≤ (-T).tmod n := Int.tmod_nonneg n (by omega)
    have h6 : (-T).tmod n < n := Int.tmod_lt_of_pos (-T) hn
    rw [h2] at h4 h1
    have h7 : n * -(T.tdiv n) = -(n * T.tdiv n) := by ring
    rw [h7] at h4
    refine ⟨by omega, by omega, by omega⟩


/-! ## The split loop -/

theorem splitLoop_length (q : Int) (k : Nat) : ∀ r : Int, (splitLoop q r k).length = k := by
  induction k with
  | zero => intro r; simp [splitLoop]
  | succ k ih =>
    intro r
    unfold splitLoop
    split_ifs <;> simp [ih]

/-- With a remainder `0 ≤ r ≤ k` the loop hands out `q * k + r` in total. -/
theorem splitLoop_sum_nonneg (q : Int) (k : Nat) : ∀ r : Int, 0 ≤ r → r ≤ k →
    (0 < r → isInt64 (q + 1)) → r ≤ maxInt64 → (splitLoop q r k).sum = q * k + r := by
  induction k with
  | zero => intro r h0 hk _ _; simp [splitLoop]; omega
  | succ k ih =>
    intro r h0 hk hq hmax
    unfold splitLoop
    unfold maxInt64 at hmax
    by_cases hr : 0 < r
    · have e1 : wrap64 (q + 1) = q + 1 := wrap64_eq (hq hr)
      have e2 : wrap64 (r - 1) = r - 1 := wrap64_eq (by unfold isInt64; omega)
      rw [if_pos hr, e1, e2, List.sum_cons,
        ih (r - 1) (by omega) (by push_cast at hk; omega) (fun _ => hq hr)
          (by unfold maxInt64; omega)]
      push_cast
      ring
    · have hr0 : r = 0 := by omega
      subst hr0
      rw [if_neg hr, if_pos rfl, List.sum_cons,
        ih 0 (le_refl 0) (by omega) (fun h => absurd h (lt_irrefl 0)) (by unfold maxInt64; omega)]
      push_cast
      ring

/-- With a remainder `-k ≤ r ≤ 0` the loop hands out `q * k + r` in total. -/
theorem splitLoop_sum_nonpos (q : Int) (k : Nat) : ∀ r : Int, r ≤ 0 → -(k : Int) ≤ r →
    (r < 0 → isInt64 (q - 1)) → minInt64 ≤ r → (splitLoop q r k).sum = q * k + r := by
  induction k with
  | zero => intro r h0 hk _ _; simp [splitLoop]; omega
  | succ k ih =>
    intro r h0 hk hq hmin
    unfold splitLoop
    unfold minInt64 at hmin
    by_cases hr : r < 0
    · have e1 : wrap64 (q - 1) = q - 1 := wrap64_eq (hq hr)
      have e2 : wrap64 (r + 1) = r + 1 := wrap64_eq (by unfold isInt64; omega)
      rw [if_neg (by omega), if_neg (by omega), e1, e2, List.sum_cons,
        ih (r + 1) (by omega) (by push_cast at hk; omega) (fun _ => hq hr)
          (by unfold minInt64; omega)]
      push_cast
      ring
    · have hr0 : r = 0 := by omega
      subst hr0
      rw [if_neg (lt_irrefl 0), if_pos rfl, List.sum_cons,
        ih 0 (le_refl 0) (by omega) (fun h => absurd h (lt_irrefl 0)) (by unfold minInt64; omega)]
      push_cast
      ring

/-- With a remainder `0 ≤ r ≤ k` every share is `q` or `q + 1`. -/
theorem splitLoop_mem_nonneg (q : Int) (k : Nat) : ∀ r : Int, 0 ≤ r →
    (0 < r → isInt64 (q + 1)) → r ≤ maxInt64 →
    ∀ x ∈ splitLoop q r k, x = q ∨ x = q + 1 := by
  induction k with
  | zero => intro r _ _ _ x hx; simp [splitLoop] at hx
  | succ k ih =>
    intro r h0 hq hmax x hx
    unfold splitLoop at hx
    unfold maxInt64 at hmax
    by_cases hr : 0 < r
    · have e1 : wrap64 (q + 1) = q + 1 := wrap64_eq (hq hr)
      have e2 : wrap64 (r - 1) = r - 1 := wrap64_eq (by unfold isInt64; omega)
      rw [if_pos hr, e1, e2] at hx
      rcases List.mem_cons.mp hx with rfl | hx
      · right; rfl
      · exact ih (r - 1) (by omega) (fun _ => hq hr) (by unfold maxInt64; omega) x hx
    · have hr0 : r = 0 := by omega
      subst hr0
      rw [if_neg hr, if_pos rfl] at hx
      rcases List.mem_cons.mp hx with rfl | hx
      · left; rfl
      · exact ih 0 (le_refl 0) (fun h => absurd h (lt_irrefl 0)) (by unfold maxInt64; omega) x hx

/-- The quotient and remainder that `splitPoints` starts from, for a total in
the range of `int64` and a positive count. -/
theorem split_start (T n : Int) (hT : isInt64 T) (hn : 1 ≤ n) :
    wrap64 (T.tdiv n) = T.tdiv n ∧ isInt64 (T.tmod n) ∧
    (0 < T.tmod n → isInt64 (T.tdiv n + 1)) ∧ (T.tmod n < 0 → isInt64 (T.tdiv n - 1)) := by
  obtain ⟨hsum, hpos, hneg⟩ := tdiv_tmod_spec T n (by omega)
  unfold isInt64 at hT
  by_cases h : 0 ≤ T
  · obtain ⟨hq, hr0, hrn⟩ := hpos h
    have hmul : T.tdiv n ≤ n * T.tdiv n := by nlinarith
    refine ⟨wrap64_eq (by unfold isInt64; omega), by unfold isInt64; omega, ?_, ?_⟩
    · intro _; unfold isInt64; omega
    · intro h'; omega
  · obtain ⟨hq, hr0, hrn⟩ := hneg (by omega)
    have hmul : n * T.tdiv n ≤ T.tdiv n := by nlinarith
    refine ⟨wrap64_eq (by unfold isInt64; omega), by unfold isInt64; omega, ?_, ?_⟩
    · intro h'; omega
    · intro _; unfold isInt64; omega

theorem splitPoints_length (T n : Int) (hn : 1 ≤ n) :
    ((splitPoints T n).length : Int) = n := by
  unfold splitPoints
  rw [if_neg (by omega), splitLoop_length]
  exact Int.toNat_of_nonneg (by omega)

theorem splitPoints_sum (T n : Int) (hT : isInt64 T) (hn : 1 ≤ n) :
    (splitPoints T n).sum = T := by
  obtain ⟨hsum, hpos, hneg⟩ := tdiv_tmod_spec T n (by omega)
  obtain ⟨hw, hr, hq1, hq2⟩ := split_start T n hT hn
  have hcast : ((n.toNat : Nat) : Int) = n := Int.toNat_of_nonneg (by omega)
  unfold isInt64 at hr
  unfold splitPoints
  rw [if_neg (by omega), hw]
  by_cases h : 0 ≤ T
  · obtain ⟨_, hr0, hrn⟩ := hpos h
    rw [splitLoop_sum_nonneg _ _ _ hr0 (by omega) hq1 (by unfold maxInt64; omega), hcast]
    linarith
  · obtain ⟨_, hr0, hrn⟩ := hneg (by omega)
    rw [splitLoop_sum_nonpos _ _ _ hr0 (by omega) hq2 (by unfold minInt64; omega), hcast]
    linarith

/-- Splitting a non-negative total gives shares `q` or `q + 1`, where `q` is the
truncated quotient; in particular no share is negative. -/
theorem splitPoints_mem_of_nonneg (T n : Int) (hT : isInt64 T) (h0 : 0 ≤ T) (hn : 1 ≤ n) :
    ∀ x ∈ splitPoints T n, (x = T.tdiv n ∨ x = T.tdiv n + 1) ∧ 0 ≤ x := by
  obtain ⟨hsum, hpos, _⟩ := tdiv_tmod_spec T n (by omega)
  obtain ⟨hw, hr, hq1, _⟩ := split_start T n hT hn
  obtain ⟨hq0, hr0, hrn⟩ := hpos h0
  unfold isInt64 at hr
  intro x hx
  unfold splitPoints at hx
  rw [if_neg (by omega), hw] at hx
  have := splitLoop_mem_nonneg _ _ _ hr0 hq1 (by unfold maxInt64; omega) x hx
  exact ⟨this, by omega⟩

/-! ## Building backer lists -/

theorem hasDuplicatesLoop_eq_false (ss : List String) : ∀ cache : List String,
    hasDuplicatesLoop cache ss = false ↔ (∀ s ∈ ss, s ∉ cache) ∧ ss.Nodup := by
  induction ss with
  | nil => intro cache; simp [hasDuplicatesLoop]
  | cons s ss ih =>
    intro cache
    unfold hasDuplicatesLoop
    by_cases h : s ∈ cache
    · simp [h]
    · simp only [h, if_false, ih, List.mem_cons, forall_eq_or_imp, List.nodup_cons, not_or]
      constructor
      · rintro ⟨h1, h2⟩
        exact ⟨⟨not_false, fun a ha => (h1 a ha).2⟩, fun hs => (h1 s hs).1 rfl, h2⟩
      · rintro ⟨⟨_, h1⟩, h2, h3⟩
        exact ⟨fun a ha => ⟨fun e => h2 (e ▸ ha), h1 a ha⟩, h3⟩

theorem hasDuplicates_eq_false (ss : List String) : hasDuplicates ss = false ↔ ss.Nodup := by
  unfold hasDuplicates
  rw [hasDuplicatesLoop_eq_false]
  simp


theorem zipBackers_points {α : Type} (g : α → String) : ∀ (l : List α) (parts : List Int),
    parts.length ≤ l.length →
    (List.zipWith (fun a pts => ({ PlayerID := g a, Points := pts } : Backer)) l parts).map
      Backer.Points = parts := by
  intro l
  induction l with
  | nil => intro parts h; cases parts with
    | nil => rfl
    | cons x xs => simp at h
  | cons a l ih =>
    intro parts h
    cases parts with
    | nil => rfl
    | cons x xs =>
      simp only [List.zipWith_cons_cons, List.map_cons]
      rw [ih xs (by simpa using h)]

theorem zipBackers_ids {α : Type} (g : α → String) : ∀ (l : List α) (parts : List Int),
    l.length ≤ parts.length →
    (List.zipWith (fun a pts => ({ PlayerID := g a, Points := pts } : Backer)) l parts).map
      Backer.PlayerID = l.map g := by
  intro l
  induction l with
  | nil => intro parts _; simp
  | cons a l ih =>
    intro parts h
    cases parts with
    | nil => simp at h
    | cons x xs =>
      simp only [List.zipWith_cons_cons, List.map_cons]
      rw [ih xs (by simpa using h)]

/-- What a successful `NewTournPlayer` went through and what it returns. -/
theorem NewTournPlayer_ok {t : Tournament} {playerID : String} {backerIDs : List String}
    {tp : TournPlayer} (h : t.NewTournPlayer playerID backerIDs = .ok tp) :
    ((backerIDs.length : Int) + 1 ≤ t.EntryDeposit) ∧ t.Active = true ∧
    hasDuplicates (playerID :: backerIDs) = false ∧
    tp = { TournamentID := t.ID
           PlayerID := playerID
           Fee := t.EntryDeposit
           Backers := List.zipWith (fun id pts => { PlayerID := id, Points := pts })
             (playerID :: backerIDs)
             (splitPoints t.EntryDeposit ((backerIDs.length : Int) + 1)) } := by
  unfold Tournament.NewTournPlayer at h
  simp only [List.length_cons, Nat.cast_add, Nat.cast_one] at h
  split_ifs at h with h1 h2 h3
  refine ⟨by omega, by simpa using h2, by simpa using h3, ?_⟩
  injection h with h
  exact h.symm

theorem NewTournPlayer_pointsSum {t : Tournament} {playerID : String}
    {backerIDs : List String} {tp : TournPlayer} (hD : isInt64 t.EntryDeposit)
    (h : t.NewTournPlayer playerID backerIDs = .ok tp) :
    pointsSum tp.Backers = t.EntryDeposit ∧ tp.Fee = t.EntryDeposit := by
  obtain ⟨hn, _, _, rfl⟩ := NewTournPlayer_ok h
  have hlen := splitPoints_length t.EntryDeposit ((backerIDs.length : Int) + 1) (by omega)
  refine ⟨?_, rfl⟩
  unfold pointsSum
  have := zipBackers_points (fun s : String => s) (playerID :: backerIDs)
    (splitPoints t.EntryDeposit ((backerIDs.length : Int) + 1))
    (by simp only [List.length_cons]; omega)
  simp only at this ⊢
  rw [this]
  exact splitPoints_sum _ _ hD (by omega)

/-- A non-negative prize is always accepted by `NewTournWinner`. -/
theorem NewTournWinner_ok (tp : TournPlayer) (prize : Int) (h0 : 0 ≤ prize) :
    tp.NewTournWinner prize = .ok
      { TournamentID := tp.TournamentID
        PlayerID := tp.PlayerID
        Prize := prize
        Backers := List.zipWith
          (fun (b : Backer) pts => { PlayerID := b.PlayerID, Points := pts })
          tp.Backers (splitPoints prize (tp.Backers.length : Int)) } := by
  unfold TournPlayer.NewTournWinner
  rw [if_neg (by omega)]

theorem NewTournWinner_pointsSum (tp : TournPlayer) (prize : Int) (hP : isInt64 prize)
    (hne : tp.Backers ≠ []) :
    pointsSum (List.zipWith (fun (b : Backer) pts => ({ PlayerID := b.PlayerID, Points := pts } : Backer))
      tp.Backers (splitPoints prize (tp.Backers.length : Int))) = prize := by
  have hpos : (1 : Int) ≤ (tp.Backers.length : Int) := by
    have := List.length_pos.mpr hne
    omega
  have hlen := splitPoints_length prize (tp.Backers.length : Int) hpos
  unfold pointsSum
  rw [zipBackers_points Backer.PlayerID tp.Backers _ (by omega)]
  exact splitPoints_sum _ _ hP hpos

/-! ## Player maps -/

theorem pointsOf_cons (k : String) (b : Backer) (bs : List Backer) :
    pointsOf k (b :: bs) = (if b.PlayerID = k then b.Points else 0) + pointsOf k bs := by
  unfold pointsOf pointsSum
  by_cases h : b.PlayerID = k
  · simp [List.filter_cons, h]
  · simp [List.filter_cons, h]

theorem pointsOf_not_mem (k : String) (bs : List Backer) (h : k ∉ backerIDsOf bs) :
    pointsOf k bs = 0 := by
  induction bs with
  | nil => rfl
  | cons b bs ih =>
    simp only [backerIDsOf, List.map_cons, List.mem_cons, not_or] at h
    rw [pointsOf_cons, if_neg (fun e => h.1 e.symm), ih h.2]
    rfl

theorem lookup_map_snd (g : String → Player → Player) (k : String) (m : PlayerMap) :
    PlayerMap.lookup k (m.map (fun e => (e.1, g e.1 e.2))) = (PlayerMap.lookup k m).map (g k) := by
  induction m with
  | nil => rfl
  | cons e m ih =>
    obtain ⟨k', p⟩ := e
    simp only [List.map_cons, PlayerMap.lookup]
    by_cases h : k' = k
    · subst h; simp
    · simp [h, ih]

theorem lookup_eq_none_iff (k : String) (m : PlayerMap) :
    PlayerMap.lookup k m = none ↔ k ∉ m.map Prod.fst := by
  induction m with
  | nil => simp [PlayerMap.lookup]
  | cons e m ih =>
    obtain ⟨k', p⟩ := e
    simp only [PlayerMap.lookup, List.map_cons, List.mem_cons, not_or]
    by_cases h : k' = k
    · subst h; simp
    · simp only [h, if_false, ih]
      constructor
      · intro h2; exact ⟨fun e => h e.symm, h2⟩
      · intro h2; exact h2.2

theorem lookup_mem {k : String} {p : Player} {m : PlayerMap}
    (h : PlayerMap.lookup k m = some p) : (k, p) ∈ m := by
  induction m with
  | nil => simp [PlayerMap.lookup] at h
  | cons e m ih =>
    obtain ⟨k', q⟩ := e
    simp only [PlayerMap.lookup] at h
    by_cases hk : k' = k
    · subst hk; simp at h; subst h; simp
    · simp only [hk, if_false] at h
      exact List.mem_cons_of_mem _ (ih h)

/-- The pay-out loop rewrites every record in place: keys and player IDs stay,
the balance under key `k` becomes `creditBal k bs`. -/
theorem payoutApply_eq : ∀ (bs : List Backer) (m : PlayerMap),
    payoutApply bs m = m.map (fun e =>
      (e.1, ({ PlayerID := e.2.PlayerID, Balance := creditBal e.1 bs e.2.Balance } : Player))) := by
  intro bs
  induction bs with
  | nil =>
    intro m
    simp only [payoutApply]
    conv_lhs => rw [← List.map_id m]
    apply List.map_congr_left
    intro e _
    simp [creditBal, backerIDsOf]
  | cons b bs ih =>
    intro m
    simp only [payoutApply]
    rw [ih, PlayerMap.adjust, List.map_map]
    apply List.map_congr_left
    intro e _
    simp only [Function.comp]
    by_cases h : e.1 = b.PlayerID
    · have hin : e.1 ∈ backerIDsOf (b :: bs) := by simp [backerIDsOf, h]
      simp only [h, if_true]
      rw [← h]
      simp only [creditBal, if_pos hin, pointsOf_cons, if_pos h.symm]
      by_cases h2 : e.1 ∈ backerIDsOf bs
      · rw [if_pos h2, wrap64_add_left, add_assoc]
      · rw [if_neg h2, pointsOf_not_mem _ _ h2, add_zero]
    · simp only [h, if_false]
      have hiff : e.1 ∈ backerIDsOf (b :: bs) ↔ e.1 ∈ backerIDsOf bs := by
        simp [backerIDsOf, h]
      have hne : ¬ b.PlayerID = e.1 := fun e' => h e'.symm
      simp only [creditBal, hiff, pointsOf_cons, if_neg hne, zero_add]

/-- The deduction loop rewrites every record in place: keys and player IDs
stay, the balance under key `k` becomes `debitBal k bs`. -/
theorem deductApply_eq : ∀ (bs : List Backer) (m : PlayerMap),
    deductApply bs m = m.map (fun e =>
      (e.1, ({ PlayerID := e.2.PlayerID, Balance := debitBal e.1 bs e.2.Balance } : Player))) := by
  intro bs
  induction bs with
  | nil =>
    intro m
    simp only [deductApply]
    conv_lhs => rw [← List.map_id m]
    apply List.map_congr_left
    intro e _
    simp [debitBal, backerIDsOf]
  | cons b bs ih =>
    intro m
    simp only [deductApply]
    rw [ih, PlayerMap.adjust, List.map_map]
    apply List.map_congr_left
    intro e _
    simp only [Function.comp]
    by_cases h : e.1 = b.PlayerID
    · have hin : e.1 ∈ backerIDsOf (b :: bs) := by simp [backerIDsOf, h]
      simp only [h, if_true]
      rw [← h]
      simp only [debitBal, if_pos hin, pointsOf_cons, if_pos h.symm]
      by_cases h2 : e.1 ∈ backerIDsOf bs
      · rw [if_pos h2, sub_eq_add_neg (wrap64 _), wrap64_add_left]
        congr 3
        ring
      · rw [if_neg h2, pointsOf_not_mem _ _ h2, add_zero]
    · simp only [h, if_false]
      have hiff : e.1 ∈ backerIDsOf (b :: bs) ↔ e.1 ∈ backerIDsOf bs := by
        simp [backerIDsOf, h]
      have hne : ¬ b.PlayerID = e.1 := fun e' => h e'.symm
      simp only [debitBal, hiff, pointsOf_cons, if_neg hne, zero_add]

/-! ## The validation passes -/

theorem deductCheck_cons_of_not_offends {players : PlayerMap} {b : Backer} (bs : List Backer)
    (h : ¬ offends players b) : deductCheck players (b :: bs) = deductCheck players bs := by
  unfold offends at h
  simp only [deductCheck]
  cases hl : players.lookup b.PlayerID with
  | none => exact absurd (Or.inl hl) h
  | some p =>
    have hp : ¬ p.Balance < b.Points := fun hlt => h (Or.inr ⟨p, hl, hlt⟩)
    simp only [if_neg hp]

theorem deductCheck_cons_of_offends (players : PlayerMap) (b : Backer) (bs : List Backer) :
    (players.lookup b.PlayerID = none →
      deductCheck players (b :: bs) = some ErrPlayerNotFound) ∧
    (∀ p, players.lookup b.PlayerID = some p → p.Balance < b.Points →
      deductCheck players (b :: bs) = some ErrNegativePlayerBalance) := by
  constructor
  · intro hl
    simp only [deductCheck, hl]
  · intro p hl hlt
    simp only [deductCheck, hl, if_pos hlt]

theorem deductCheck_ne_none_iff (players : PlayerMap) (bs : List Backer) :
    deductCheck players bs ≠ none ↔ ∃ b ∈ bs, offends players b := by
  induction bs with
  | nil => simp [deductCheck]
  | cons b bs ih =>
    by_cases h : offends players b
    · constructor
      · intro _; exact ⟨b, List.mem_cons_self _ _, h⟩
      · intro _
        obtain ⟨h1, h2⟩ := deductCheck_cons_of_offends players b bs
        rcases h with hl | ⟨p, hl, hlt⟩
        · rw [h1 hl]; simp
        · rw [h2 p hl hlt]; simp
    · rw [deductCheck_cons_of_not_offends bs h, ih]
      constructor
      · rintro ⟨b', hb', ho⟩; exact ⟨b', List.mem_cons_of_mem _ hb', ho⟩
      · rintro ⟨b', hb', ho⟩
        rcases List.mem_cons.mp hb' with rfl | hb'
        · exact absurd ho h
        · exact ⟨b', hb', ho⟩

theorem deductCheck_skip (players : PlayerMap) : ∀ (pre rest : List Backer),
    (∀ b ∈ pre, ¬ offends players b) →
    deductCheck players (pre ++ rest) = deductCheck players rest := by
  intro pre
  induction pre with
  | nil => intro rest _; rfl
  | cons b pre ih =>
    intro rest h
    rw [List.cons_append, deductCheck_cons_of_not_offends _ (h b (List.mem_cons_self _ _))]
    exact ih rest (fun b' hb' => h b' (List.mem_cons_of_mem _ hb'))

theorem payoutCheck_eq_none_iff (players : PlayerMap) (bs : List Backer) :
    payoutCheck players bs = none ↔ ∀ b ∈ bs, players.lookup b.PlayerID ≠ none := by
  induction bs with
  | nil => simp [payoutCheck]
  | cons b bs ih =>
    simp only [payoutCheck, List.mem_cons, forall_eq_or_imp]
    cases hl : players.lookup b.PlayerID with
    | none => simp
    | some p => simp [ih]

theorem payoutCheck_cases (players : PlayerMap) (bs : List Backer) :
    payoutCheck players bs = none ∨ payoutCheck players bs = some ErrPlayerNotFound := by
  induction bs with
  | nil => left; rfl
  | cons b bs ih =>
    simp only [payoutCheck]
    cases hl : players.lookup b.PlayerID with
    | none => right; rfl
    | some p => exact ih

/-! ## Balances after the mutation passes -/

theorem pointsOf_of_nodup : ∀ (bs : List Backer), (backerIDsOf bs).Nodup →
    ∀ b ∈ bs, pointsOf b.PlayerID bs = b.Points := by
  intro bs
  induction bs with
  | nil => intro _ b hb; simp at hb
  | cons a bs ih =>
    intro hnd b hb
    simp only [backerIDsOf, List.map_cons, List.nodup_cons] at hnd
    rw [pointsOf_cons]
    rcases List.mem_cons.mp hb with rfl | hb
    · rw [if_pos rfl, pointsOf_not_mem _ _ hnd.1, add_zero]
    · have hne : ¬ a.PlayerID = b.PlayerID := by
        intro e
        apply hnd.1
        rw [e]
        exact List.mem_map_of_mem Backer.PlayerID hb
      rw [if_neg hne, zero_add]
      exact ih hnd.2 b hb

theorem lookup_deductApply (k : String) (bs : List Backer) (m : PlayerMap) :
    PlayerMap.lookup k (deductApply bs m) = (PlayerMap.lookup k m).map
      (fun p => ({ PlayerID := p.PlayerID, Balance := debitBal k bs p.Balance } : Player)) := by
  rw [deductApply_eq]
  exact lookup_map_snd
    (fun k p => ({ PlayerID := p.PlayerID, Balance := debitBal k bs p.Balance } : Player)) k m

theorem lookup_payoutApply (k : String) (bs : List Backer) (m : PlayerMap) :
    PlayerMap.lookup k (payoutApply bs m) = (PlayerMap.lookup k m).map
      (fun p => ({ PlayerID := p.PlayerID, Balance := creditBal k bs p.Balance } : Player)) := by
  rw [payoutApply_eq]
  exact lookup_map_snd
    (fun k p => ({ PlayerID := p.PlayerID, Balance := creditBal k bs p.Balance } : Player)) k m

theorem keys_deductApply (bs : List Backer) (m : PlayerMap) :
    (deductApply bs m).map Prod.fst = m.map Prod.fst := by
  rw [deductApply_eq, List.map_map]
  rfl

theorem keys_payoutApply (bs : List Backer) (m : PlayerMap) :
    (payoutApply bs m).map Prod.fst = m.map Prod.fst := by
  rw [payoutApply_eq, List.map_map]
  rfl

theorem DeductDeposit_of_ok {tp : TournPlayer} {players : PlayerMap}
    (hok : (tp.DeductDeposit players).1 = none) :
    (tp.DeductDeposit players).2 = deductApply tp.Backers players ∧
    ∀ b ∈ tp.Backers, ¬ offends players b := by
  have hfst : (tp.DeductDeposit players).1 = deductCheck players tp.Backers := by
    unfold TournPlayer.DeductDeposit
    cases deductCheck players tp.Backers <;> rfl
  rw [hfst] at hok
  constructor
  · unfold TournPlayer.DeductDeposit
    rw [hok]
  · intro b hb ho
    exact (deductCheck_ne_none_iff players tp.Backers).mpr ⟨b, hb, ho⟩ hok

theorem DeductDeposit_all_or_nothing_aux (tp : TournPlayer) (players : PlayerMap) :
    (tp.DeductDeposit players).1 = deductCheck players tp.Backers ∧
    ((tp.DeductDeposit players).1 ≠ none → (tp.DeductDeposit players).2 = players) := by
  unfold TournPlayer.DeductDeposit
  cases deductCheck players tp.Backers with
  | none => exact ⟨rfl, fun h => absurd rfl h⟩
  | some e => exact ⟨rfl, fun _ => rfl⟩

theorem not_offends_iff (players : PlayerMap) (b : Backer) :
    ¬ offends players b ↔ ∃ p, players.lookup b.PlayerID = some p ∧ b.Points ≤ p.Balance := by
  unfold offends
  cases hl : players.lookup b.PlayerID with
  | none => simp
  | some p => simp

theorem PayoutPrize_fst (tw : TournWinner) (players : PlayerMap) :
    (tw.PayoutPrize players).1 = payoutCheck players tw.Backers := by
  unfold TournWinner.PayoutPrize
  cases payoutCheck players tw.Backers <;> rfl

theorem PayoutPrize_snd (tw : TournWinner) (players : PlayerMap) :
    (tw.PayoutPrize players).2 = players ∨
    ((tw.PayoutPrize players).1 = none ∧
      (tw.PayoutPrize players).2 = payoutApply tw.Backers players) := by
  unfold TournWinner.PayoutPrize
  cases payoutCheck players tw.Backers with
  | none => right; exact ⟨rfl, rfl⟩
  | some e => left; rfl

/-- The entry of a successful `NewTournPlayer`: its backer IDs are the ID list
`playerID :: backerIDs`, pairwise distinct, and no backer has negative points. -/
theorem NewTournPlayer_backers {t : Tournament} {playerID : String}
    {backerIDs : List String} {tp : TournPlayer} (hD : isInt64 t.EntryDeposit)
    (h : t.NewTournPlayer playerID backerIDs = .ok tp) :
    backerIDsOf tp.Backers = playerID :: backerIDs ∧ (backerIDsOf tp.Backers).Nodup ∧
    ∀ b ∈ tp.Backers, 0 ≤ b.Points := by
  obtain ⟨hn, _, hdup, rfl⟩ := NewTournPlayer_ok h
  have hlen := splitPoints_length t.EntryDeposit ((backerIDs.length : Int) + 1) (by omega)
  have hids : backerIDsOf (List.zipWith (fun id pts => ({ PlayerID := id, Points := pts } : Backer))
      (playerID :: backerIDs) (splitPoints t.EntryDeposit ((backerIDs.length : Int) + 1)))
      = playerID :: backerIDs := by
    have := zipBackers_ids (fun s : String => s) (playerID :: backerIDs)
      (splitPoints t.EntryDeposit ((backerIDs.length : Int) + 1))
      (by simp only [List.length_cons]; omega)
    simp only [List.map_id'] at this
    exact this
  have hpts := zipBackers_points (fun s : String => s) (playerID :: backerIDs)
    (splitPoints t.EntryDeposit ((backerIDs.length : Int) + 1))
    (by simp only [List.length_cons]; omega)
  refine ⟨hids, ?_, ?_⟩
  · simp only at hids ⊢
    rw [hids]
    exact (hasDuplicates_eq_false _).mp hdup
  · intro b hb
    have hmem : b.Points ∈ splitPoints t.EntryDeposit ((backerIDs.length : Int) + 1) := by
      simp only at hb
      rw [← hpts]
      exact List.mem_map_of_mem Backer.Points hb
    exact (splitPoints_mem_of_nonneg _ _ hD (by omega) (by omega) _ hmem).2

/-- No backer of a result returned by `NewTournWinner` has negative points. -/
theorem NewTournWinner_backers {tp : TournPlayer} {prize : Int} {tw : TournWinner}
    (hP : isInt64 prize) (h : tp.NewTournWinner prize = .ok tw) :
    ∀ b ∈ tw.Backers, 0 ≤ b.Points := by
  unfold TournPlayer.NewTournWinner at h
  split_ifs at h with h0
  injection h with h
  subst h
  intro b hb
  simp only at hb
  by_cases hne : tp.Backers = []
  · simp [hne] at hb
  · have hpos : (1 : Int) ≤ (tp.Backers.length : Int) := by
      have := List.length_pos.mpr hne
      omega
    have hlen := splitPoints_length prize (tp.Backers.length : Int) hpos
    have hpts := zipBackers_points Backer.PlayerID tp.Backers
      (splitPoints prize (tp.Backers.length : Int)) (by omega)
    have hmem : b.Points ∈ splitPoints prize (tp.Backers.length : Int) := by
      rw [← hpts]
      exact List.mem_map_of_mem Backer.Points hb
    exact (splitPoints_mem_of_nonneg _ _ hP (by omega) hpos _ hmem).2

theorem pointsOf_nonneg (k : String) (bs : List Backer) (h : ∀ b ∈ bs, 0 ≤ b.Points) :
    0 ≤ pointsOf k bs := by
  induction bs with
  | nil => simp [pointsOf, pointsSum]
  | cons b bs ih =>
    rw [pointsOf_cons]
    have h1 := h b (List.mem_cons_self _ _)
    have h2 := ih (fun b' hb' => h b' (List.mem_cons_of_mem _ hb'))
    split_ifs <;> omega

/-- C1: for every total `T` in the range of `int64` and every count `n ≥ 1`,
`splitPoints T n` has exactly `n` elements and their sum is exactly `T`. -/
theorem splitPoints_length_and_sum (T n : Int) (hT : isInt64 T) (hn : 1 ≤ n) :
    ((splitPoints T n).length : Int) = n ∧ (splitPoints T n).sum = T :=
  ⟨splitPoints_length T n hn, splitPoints_sum T n hT hn⟩

theorem splitPoints_length_and_sum_witness :
    isInt64 (-3) ∧ (1 : Int) ≤ 2 ∧
    ((splitPoints (-3) 2).length : Int) = 2 ∧ (splitPoints (-3) 2).sum = -3 :=
  ⟨by decide, by decide, splitPoints_length_and_sum (-3) 2 (by decide) (by decide)⟩


/-- C2: whenever `NewTournPlayer` succeeds (on a tournament whose deposit is an
`int64`), the points of all backers of the returned entry add up to the
tournament's `EntryDeposit`, which is also the entry's `Fee`. -/
theorem NewTournPlayer_conservation (t : Tournament) (playerID : String)
    (backerIDs : List String) (tp : TournPlayer) (hD : isInt64 t.EntryDeposit)
    (h : t.NewTournPlayer playerID backerIDs = .ok tp) :
    (tp.Backers.map Backer.Points).sum = t.EntryDeposit ∧
    (tp.Backers.map Backer.Points).sum = tp.Fee := by
  obtain ⟨h1, h2⟩ := NewTournPlayer_pointsSum hD h
  unfold pointsSum at h1
  exact ⟨h1, by rw [h1, h2]⟩

theorem NewTournPlayer_conservation_witness :
    isInt64 100 ∧
    (Tournament.mk 123 100 true).NewTournPlayer "P1" ["P2", "P3"] =
      .ok ⟨123, "P1", 100, [⟨"P1", 34⟩, ⟨"P2", 33⟩, ⟨"P3", 33⟩]⟩ ∧
    (([⟨"P1", 34⟩, ⟨"P2", 33⟩, ⟨"P3", 33⟩] : List Backer).map Backer.Points).sum = 100 ∧
    (([⟨"P1", 34⟩, ⟨"P2", 33⟩, ⟨"P3", 33⟩] : List Backer).map Backer.Points).sum = 100 :=
  ⟨by decide, by rfl,
    NewTournPlayer_conservation (Tournament.mk 123 100 true) "P1" ["P2", "P3"]
      ⟨123, "P1", 100, [⟨"P1", 34⟩, ⟨"P2", 33⟩, ⟨"P3", 33⟩]⟩ (by decide) (by rfl)⟩


/-- C3 (as amended): for every entry and every prize `≥ 0` (an `int64`),
`NewTournWinner` succeeds; when the entry has at least one backer the points of
the backers of the result add up to the prize, and when it has none the result
has no backers either (nothing is distributed). -/
theorem NewTournWinner_conservation (tp : TournPlayer) (prize : Int) (hP : isInt64 prize)
    (h0 : 0 ≤ prize) :
    ∃ tw, tp.NewTournWinner prize = .ok tw ∧
      (tp.Backers ≠ [] → (tw.Backers.map Backer.Points).sum = prize) ∧
      (tp.Backers = [] → tw.Backers = []) := by
  refine ⟨_, NewTournWinner_ok tp prize h0, ?_, ?_⟩
  · intro hne
    exact NewTournWinner_pointsSum tp prize hP hne
  · intro he
    simp [he]

theorem NewTournWinner_conservation_witness :
    isInt64 500 ∧ (0 : Int) ≤ 500 ∧
    ∃ tw, (TournPlayer.mk 123 "P1" 100 [⟨"P1", 34⟩, ⟨"P3", 33⟩, ⟨"P3", 33⟩]).NewTournWinner 500
        = .ok tw ∧
      (([⟨"P1", 34⟩, ⟨"P3", 33⟩, ⟨"P3", 33⟩] : List Backer) ≠ [] →
        (tw.Backers.map Backer.Points).sum = 500) ∧
      (([⟨"P1", 34⟩, ⟨"P3", 33⟩, ⟨"P3", 33⟩] : List Backer) = [] → tw.Backers = []) :=
  ⟨by decide, by decide,
    NewTournWinner_conservation
      (TournPlayer.mk 123 "P1" 100 [⟨"P1", 34⟩, ⟨"P3", 33⟩, ⟨"P3", 33⟩]) 500
      (by decide) (by decide)⟩

/-- C3 as stated fails: for the entry without backers and the prize 100 the
call succeeds with an empty backer list, whose points add up to 0, not 100. -/
theorem NewTournWinner_conservation_counterexample :
    isInt64 100 ∧ (0 : Int) ≤ 100 ∧
    (TournPlayer.mk 0 "" 0 []).NewTournWinner 100 = .ok (TournWinner.mk 0 "" 100 []) ∧
    ((TournWinner.mk 0 "" 100 []).Backers.map Backer.Points).sum = 0 ∧
    ¬ ∃ tw, (TournPlayer.mk 0 "" 0 []).NewTournWinner 100 = .ok tw ∧
        (tw.Backers.map Backer.Points).sum = 100 := by
  refine ⟨by decide, by decide, by rfl, by decide, ?_⟩
  rintro ⟨tw, h, hs⟩
  have h2 : (TournPlayer.mk 0 "" 0 []).NewTournWinner 100 = .ok (TournWinner.mk 0 "" 100 []) :=
    by rfl
  rw [h2] at h
  injection h with h
  subst h
  revert hs
  decide

/-- C4 (as amended): `AddBalance` returns `ErrNegativePlayerBalance` and leaves
the player unmodified if and only if the 64-bit wrap-around sum of balance and
delta is negative; in every other case it returns no error, sets the balance to
that wrap-around sum and keeps `PlayerID`.  The wrap-around sum is the exact sum
whenever the exact sum is in the range of `int64`. -/
theorem AddBalance_spec (p : Player) (delta : Int) :
    (((p.AddBalance delta).1 = some ErrNegativePlayerBalance ∧ (p.AddBalance delta).2 = p) ↔
      wrap64 (p.Balance + delta) < 0) ∧
    (¬ wrap64 (p.Balance + delta) < 0 →
      (p.AddBalance delta).1 = none ∧
      (p.AddBalance delta).2.Balance = wrap64 (p.Balance + delta) ∧
      (p.AddBalance delta).2.PlayerID = p.PlayerID) ∧
    (isInt64 (p.Balance + delta) → wrap64 (p.Balance + delta) = p.Balance + delta) := by
  refine ⟨?_, ?_, wrap64_eq⟩
  · unfold Player.AddBalance
    by_cases h : wrap64 (p.Balance + delta) < 0
    · simp [h]
    · simp [h]
  · intro h
    unfold Player.AddBalance
    simp [h]

theorem AddBalance_spec_witness :
    ((((Player.mk "P1" 100).AddBalance (-110)).1 = some ErrNegativePlayerBalance ∧
        ((Player.mk "P1" 100).AddBalance (-110)).2 = Player.mk "P1" 100) ↔
      wrap64 ((Player.mk "P1" 100).Balance + -110) < 0) ∧
    (¬ wrap64 ((Player.mk "P1" 100).Balance + -110) < 0 →
      ((Player.mk "P1" 100).AddBalance (-110)).1 = none ∧
      ((Player.mk "P1" 100).AddBalance (-110)).2.Balance =
        wrap64 ((Player.mk "P1" 100).Balance + -110) ∧
      ((Player.mk "P1" 100).AddBalance (-110)).2.PlayerID = (Player.mk "P1" 100).PlayerID) ∧
    (isInt64 ((Player.mk "P1" 100).Balance + -110) →
      wrap64 ((Player.mk "P1" 100).Balance + -110) = (Player.mk "P1" 100).Balance + -110) :=
  AddBalance_spec (Player.mk "P1" 100) (-110)

/-- C4 as stated fails when the addition overflows: with balance `2^63 - 1` and
delta 1 the exact sum is not negative, yet `AddBalance` returns
`ErrNegativePlayerBalance`; with balance `-2^63` and delta -1 the exact sum is
negative, yet `AddBalance` returns no error and sets the balance to `2^63 - 1`. -/
theorem AddBalance_counterexample :
    (isInt64 9223372036854775807 ∧ isInt64 1 ∧
      ¬ ((9223372036854775807 : Int) + 1 < 0) ∧
      (Player.mk "P1" 9223372036854775807).AddBalance 1 =
        (some ErrNegativePlayerBalance, Player.mk "P1" 9223372036854775807)) ∧
    (isInt64 (-9223372036854775808) ∧ isInt64 (-1) ∧
      ((-9223372036854775808 : Int) + -1 < 0) ∧
      (Player.mk "P1" (-9223372036854775808)).AddBalance (-1) =
        (none, Player.mk "P1" 9223372036854775807)) := by
  refine ⟨⟨by decide, by decide, by decide, by decide⟩, ⟨by decide, by decide, by decide, by decide⟩⟩


/-- C6: `DeductDeposit` returns an error if and only if some backer of the entry
is absent from the map or has a balance smaller than its points; the error is
`ErrPlayerNotFound` or `ErrNegativePlayerBalance` according to the first such
backer in list order; and whenever an error is returned the map is unchanged. -/
theorem DeductDeposit_all_or_nothing (tp : TournPlayer) (players : PlayerMap) :
    ((tp.DeductDeposit players).1 ≠ none ↔ ∃ b ∈ tp.Backers, offends players b) ∧
    (∀ pre b post, tp.Backers = pre ++ b :: post → (∀ b' ∈ pre, ¬ offends players b') →
      (players.lookup b.PlayerID = none →
        (tp.DeductDeposit players).1 = some ErrPlayerNotFound) ∧
      (∀ p, players.lookup b.PlayerID = some p → p.Balance < b.Points →
        (tp.DeductDeposit players).1 = some ErrNegativePlayerBalance)) ∧
    ((tp.DeductDeposit players).1 ≠ none → (tp.DeductDeposit players).2 = players) := by
  have hfst : (tp.DeductDeposit players).1 = deductCheck players tp.Backers := by
    unfold TournPlayer.DeductDeposit
    cases deductCheck players tp.Backers <;> rfl
  refine ⟨?_, ?_, ?_⟩
  · rw [hfst]
    exact deductCheck_ne_none_iff players tp.Backers
  · intro pre b post hsplit hpre
    rw [hfst, hsplit, deductCheck_skip players pre (b :: post) hpre]
    constructor
    · intro hl
      exact (deductCheck_cons_of_offends players b post).1 hl
    · intro p hl hlt
      exact (deductCheck_cons_of_offends players b post).2 p hl hlt
  · intro hne
    rw [hfst] at hne
    unfold TournPlayer.DeductDeposit
    cases hc : deductCheck players tp.Backers with
    | none => exact absurd hc hne
    | some e => rfl

theorem DeductDeposit_all_or_nothing_witness :
    ((TournPlayer.mk 1 "P1" 200 [⟨"P1", 1⟩, ⟨"P2", 200⟩, ⟨"P9", 3⟩]).DeductDeposit
        [("P1", ⟨"P1", 100⟩), ("P2", ⟨"P2", 100⟩)]).1 = some ErrNegativePlayerBalance ∧
    ((TournPlayer.mk 1 "P1" 200 [⟨"P1", 1⟩, ⟨"P2", 200⟩, ⟨"P9", 3⟩]).DeductDeposit
        [("P1", ⟨"P1", 100⟩), ("P2", ⟨"P2", 100⟩)]).2 =
      [("P1", ⟨"P1", 100⟩), ("P2", ⟨"P2", 100⟩)] := by
  have h := DeductDeposit_all_or_nothing
    (TournPlayer.mk 1 "P1" 200 [⟨"P1", 1⟩, ⟨"P2", 200⟩, ⟨"P9", 3⟩])
    [("P1", ⟨"P1", 100⟩), ("P2", ⟨"P2", 100⟩)]
  have herr := (h.2.1 [⟨"P1", 1⟩] ⟨"P2", 200⟩ [⟨"P9", 3⟩] rfl (by
    intro b' hb'
    simp only [List.mem_singleton] at hb'
    subst hb'
    unfold offends
    decide)).2 ⟨"P2", 100⟩ (by decide) (by decide)
  exact ⟨herr, h.2.2 (by rw [herr]; simp)⟩


/-- C7 (as amended): when `DeductDeposit` succeeds on an entry whose backer IDs
are pairwise distinct, every backer is in the map and its balance becomes the
64-bit wrap-around difference of its old balance and its points, which is the
exact difference whenever that does not exceed the largest `int64` (always so
for points `≥ 0`); the record of every player who is not a backer is unchanged;
the key set of the map is unchanged. -/
theorem DeductDeposit_frame (tp : TournPlayer) (players : PlayerMap)
    (hok : (tp.DeductDeposit players).1 = none) (hnd : (backerIDsOf tp.Backers).Nodup) :
    (∀ b ∈ tp.Backers, ∃ p, players.lookup b.PlayerID = some p ∧
      (tp.DeductDeposit players).2.lookup b.PlayerID =
        some { PlayerID := p.PlayerID, Balance := wrap64 (p.Balance - b.Points) } ∧
      (p.Balance - b.Points ≤ maxInt64 → wrap64 (p.Balance - b.Points) = p.Balance - b.Points)) ∧
    (∀ k, k ∉ backerIDsOf tp.Backers →
      (tp.DeductDeposit players).2.lookup k = players.lookup k) ∧
    (tp.DeductDeposit players).2.map Prod.fst = players.map Prod.fst := by
  obtain ⟨hmap, hchk⟩ := DeductDeposit_of_ok hok
  rw [hmap]
  refine ⟨?_, ?_, keys_deductApply _ _⟩
  · intro b hb
    obtain ⟨p, hl, hle⟩ := (not_offends_iff players b).mp (hchk b hb)
    have hin : b.PlayerID ∈ backerIDsOf tp.Backers := List.mem_map_of_mem Backer.PlayerID hb
    refine ⟨p, hl, ?_, ?_⟩
    · rw [lookup_deductApply, hl]
      simp only [Option.map_some', debitBal, if_pos hin, pointsOf_of_nodup _ hnd b hb]
    · intro hmax
      unfold maxInt64 at hmax
      exact wrap64_eq (by unfold isInt64; omega)
  · intro k hk
    rw [lookup_deductApply]
    cases hl : players.lookup k with
    | none => rfl
    | some p => simp only [Option.map_some', debitBal, if_neg hk]

theorem DeductDeposit_frame_witness :
    (∀ b ∈ (TournPlayer.mk 1 "P1" 6 [⟨"P1", 1⟩, ⟨"P2", 5⟩]).Backers,
      ∃ p, PlayerMap.lookup b.PlayerID [("P1", ⟨"P1", 100⟩), ("P2", ⟨"P2", 100⟩), ("P3", ⟨"P3", 7⟩)]
          = some p ∧
        ((TournPlayer.mk 1 "P1" 6 [⟨"P1", 1⟩, ⟨"P2", 5⟩]).DeductDeposit
          [("P1", ⟨"P1", 100⟩), ("P2", ⟨"P2", 100⟩), ("P3", ⟨"P3", 7⟩)]).2.lookup b.PlayerID =
          some { PlayerID := p.PlayerID, Balance := wrap64 (p.Balance - b.Points) } ∧
        (p.Balance - b.Points ≤ maxInt64 →
          wrap64 (p.Balance - b.Points) = p.Balance - b.Points)) ∧
    (∀ k, k ∉ backerIDsOf (TournPlayer.mk 1 "P1" 6 [⟨"P1", 1⟩, ⟨"P2", 5⟩]).Backers →
      ((TournPlayer.mk 1 "P1" 6 [⟨"P1", 1⟩, ⟨"P2", 5⟩]).DeductDeposit
        [("P1", ⟨"P1", 100⟩), ("P2", ⟨"P2", 100⟩), ("P3", ⟨"P3", 7⟩)]).2.lookup k =
        PlayerMap.lookup k [("P1", ⟨"P1", 100⟩), ("P2", ⟨"P2", 100⟩), ("P3", ⟨"P3", 7⟩)]) ∧
    ((TournPlayer.mk 1 "P1" 6 [⟨"P1", 1⟩, ⟨"P2", 5⟩]).DeductDeposit
        [("P1", ⟨"P1", 100⟩), ("P2", ⟨"P2", 100⟩), ("P3", ⟨"P3", 7⟩)]).2.map Prod.fst =
      List.map Prod.fst
        ([("P1", ⟨"P1", 100⟩), ("P2", ⟨"P2", 100⟩), ("P3", ⟨"P3", 7⟩)] : PlayerMap) :=
  DeductDeposit_frame (TournPlayer.mk 1 "P1" 6 [⟨"P1", 1⟩, ⟨"P2", 5⟩])
    [("P1", ⟨"P1", 100⟩), ("P2", ⟨"P2", 100⟩), ("P3", ⟨"P3", 7⟩)] (by decide) (by decide)

/-- C7 as stated fails when the subtraction overflows: the entry with the single
backer `P1` of points -1 is deducted successfully from a map in which `P1` holds
`2^63 - 1`, and the balance of `P1` becomes `-2^63`, not `2^63 - 1 - (-1)`. -/
theorem DeductDeposit_frame_counterexample :
    ((TournPlayer.mk 1 "P1" 0 [⟨"P1", -1⟩]).DeductDeposit
        [("P1", ⟨"P1", 9223372036854775807⟩)]).1 = none ∧
    (backerIDsOf (TournPlayer.mk 1 "P1" 0 [⟨"P1", -1⟩]).Backers).Nodup ∧
    PlayerMap.lookup "P1" [("P1", ⟨"P1", 9223372036854775807⟩)] =
      some ⟨"P1", 9223372036854775807⟩ ∧
    ((TournPlayer.mk 1 "P1" 0 [⟨"P1", -1⟩]).DeductDeposit
        [("P1", ⟨"P1", 9223372036854775807⟩)]).2.lookup "P1" =
      some ⟨"P1", -9223372036854775808⟩ ∧
    (-9223372036854775808 : Int) ≠ 9223372036854775807 - (-1) := by
  refine ⟨by decide, by decide, by decide, by decide, by decide⟩


/-- C8 (as amended): `PayoutPrize` returns `ErrPlayerNotFound` if and only if
some backer of the result is absent from the map, and then leaves the map
unchanged; otherwise it returns no error and, with no negative-balance check,
the balance of every backer becomes the 64-bit wrap-around sum of its old
balance and all points the result holds for it (the exact sum whenever that is
in the range of `int64`); the record of every other player and the key set are
unchanged. -/
theorem PayoutPrize_spec (tw : TournWinner) (players : PlayerMap) :
    ((tw.PayoutPrize players).1 = some ErrPlayerNotFound ↔
      ∃ b ∈ tw.Backers, players.lookup b.PlayerID = none) ∧
    ((tw.PayoutPrize players).1 = some ErrPlayerNotFound →
      (tw.PayoutPrize players).2 = players) ∧
    ((tw.PayoutPrize players).1 ≠ some ErrPlayerNotFound →
      (tw.PayoutPrize players).1 = none ∧
      (∀ k ∈ backerIDsOf tw.Backers, ∃ p, players.lookup k = some p ∧
        (tw.PayoutPrize players).2.lookup k =
          some { PlayerID := p.PlayerID, Balance := wrap64 (p.Balance + pointsOf k tw.Backers) } ∧
        (isInt64 (p.Balance + pointsOf k tw.Backers) →
          wrap64 (p.Balance + pointsOf k tw.Backers) = p.Balance + pointsOf k tw.Backers)) ∧
      (∀ k, k ∉ backerIDsOf tw.Backers →
        (tw.PayoutPrize players).2.lookup k = players.lookup k) ∧
      (tw.PayoutPrize players).2.map Prod.fst = players.map Prod.fst) := by
  have hfst := PayoutPrize_fst tw players
  have hcases := payoutCheck_cases players tw.Backers
  have hnone := payoutCheck_eq_none_iff players tw.Backers
  refine ⟨?_, ?_, ?_⟩
  · rw [hfst]
    constructor
    · intro he
      by_contra hall
      have : payoutCheck players tw.Backers = none :=
        hnone.mpr (fun b hb hl => hall ⟨b, hb, hl⟩)
      rw [this] at he
      exact absurd he (by simp)
    · rintro ⟨b, hb, hl⟩
      rcases hcases with hc | hc
      · exact absurd hl (hnone.mp hc b hb)
      · exact hc
  · intro he
    rcases PayoutPrize_snd tw players with h | ⟨h, _⟩
    · exact h
    · rw [h] at he
      exact absurd he (by simp)
  · intro hne
    rw [hfst] at hne
    have hc : payoutCheck players tw.Backers = none := by
      rcases hcases with hc | hc
      · exact hc
      · exact absurd hc hne
    have hsnd : (tw.PayoutPrize players).2 = payoutApply tw.Backers players := by
      unfold TournWinner.PayoutPrize
      rw [hc]
    rw [hfst, hsnd]
    refine ⟨hc, ?_, ?_, keys_payoutApply _ _⟩
    · intro k hk
      obtain ⟨b, hb, rfl⟩ := List.mem_map.mp hk
      cases hl : players.lookup b.PlayerID with
      | none => exact absurd hl (hnone.mp hc b hb)
      | some p =>
        refine ⟨p, rfl, ?_, wrap64_eq⟩
        rw [lookup_payoutApply, hl]
        simp only [Option.map_some', creditBal, if_pos hk]
    · intro k hk
      rw [lookup_payoutApply]
      cases hl : players.lookup k with
      | none => rfl
      | some p => simp only [Option.map_some', creditBal, if_neg hk]

theorem PayoutPrize_spec_witness :
    ((TournWinner.mk 1 "P1" 0 [⟨"P1", 1⟩, ⟨"P3", -150⟩]).PayoutPrize
        [("P1", ⟨"P1", 100⟩), ("P3", ⟨"P3", 100⟩)]).1 = none ∧
    ((TournWinner.mk 1 "P1" 0 [⟨"P1", 1⟩, ⟨"P3", -150⟩]).PayoutPrize
        [("P1", ⟨"P1", 100⟩), ("P3", ⟨"P3", 100⟩)]).2.lookup "P3" = some ⟨"P3", -50⟩ := by
  have h := (PayoutPrize_spec (TournWinner.mk 1 "P1" 0 [⟨"P1", 1⟩, ⟨"P3", -150⟩])
    [("P1", ⟨"P1", 100⟩), ("P3", ⟨"P3", 100⟩)]).2.2 (by decide)
  refine ⟨h.1, ?_⟩
  obtain ⟨p, hp, hl, _⟩ := h.2.1 "P3" (by decide)
  have hp3 : p = ⟨"P3", 100⟩ := by
    have : PlayerMap.lookup "P3" [("P1", ⟨"P1", 100⟩), ("P3", ⟨"P3", 100⟩)]
        = some ⟨"P3", 100⟩ := by decide
    rw [this] at hp
    injection hp with hp
    exact hp.symm
  subst hp3
  rw [hl]
  decide

/-- C8 as stated fails when the addition overflows: paying the single share 1
of `P1` into a map in which `P1` holds `2^63 - 1` succeeds, and the balance of
`P1` becomes `-2^63`, not `2^63 - 1 + 1`. -/
theorem PayoutPrize_counterexample :
    ((TournWinner.mk 1 "P1" 1 [⟨"P1", 1⟩]).PayoutPrize
        [("P1", ⟨"P1", 9223372036854775807⟩)]).1 = none ∧
    PlayerMap.lookup "P1" [("P1", ⟨"P1", 9223372036854775807⟩)] =
      some ⟨"P1", 9223372036854775807⟩ ∧
    ((TournWinner.mk 1 "P1" 1 [⟨"P1", 1⟩]).PayoutPrize
        [("P1", ⟨"P1", 9223372036854775807⟩)]).2.lookup "P1" =
      some ⟨"P1", -9223372036854775808⟩ ∧
    (-9223372036854775808 : Int) ≠ 9223372036854775807 + 1 := by
  refine ⟨by decide, by decide, by decide, by decide⟩

/-- C5 (as amended): starting from a player map in which every balance is a
non-negative `int64`, every balance is still `≥ 0` after (a) `AddBalance` with
any `int64` delta (also one for which the addition wraps around), (b)
`DeductDeposit` of any entry returned by `NewTournPlayer`, and (c) `PayoutPrize`
of any result returned by `NewTournWinner` provided that no balance plus the
shares credited to it exceeds the largest `int64`; whether the operation
succeeds or fails. -/
theorem nonneg_balances_invariant (players : PlayerMap)
    (hm : ∀ k p, players.lookup k = some p → 0 ≤ p.Balance ∧ p.Balance ≤ maxInt64) :
    (∀ k p delta, players.lookup k = some p → isInt64 delta →
      0 ≤ (p.AddBalance delta).2.Balance) ∧
    (∀ (t : Tournament) (playerID : String) (backerIDs : List String) (tp : TournPlayer),
      isInt64 t.EntryDeposit → t.NewTournPlayer playerID backerIDs = .ok tp →
      ∀ k p, (tp.DeductDeposit players).2.lookup k = some p → 0 ≤ p.Balance) ∧
    (∀ (tp : TournPlayer) (prize : Int) (tw : TournWinner), isInt64 prize →
      tp.NewTournWinner prize = .ok tw →
      (∀ k p, players.lookup k = some p → p.Balance + pointsOf k tw.Backers ≤ maxInt64) →
      ∀ k p, (tw.PayoutPrize players).2.lookup k = some p → 0 ≤ p.Balance) := by
  refine ⟨?_, ?_, ?_⟩
  · intro k p delta hl _
    have h0 := (hm k p hl).1
    unfold Player.AddBalance
    by_cases h : wrap64 (p.Balance + delta) < 0
    · simp only [if_pos h]; exact h0
    · simp only [if_neg h]; omega
  · intro t playerID backerIDs tp hD htp k p' hl'
    obtain ⟨_, hnd, hpts⟩ := NewTournPlayer_backers hD htp
    cases hok : (tp.DeductDeposit players).1 with
    | some e =>
      have hsame := (DeductDeposit_all_or_nothing_aux tp players).2 (by rw [hok]; simp)
      rw [hsame] at hl'
      exact (hm k p' hl').1
    | none =>
      obtain ⟨hmap, hchk⟩ := DeductDeposit_of_ok hok
      rw [hmap, lookup_deductApply] at hl'
      cases hl : players.lookup k with
      | none => rw [hl] at hl'; simp at hl'
      | some p =>
        rw [hl] at hl'
        simp only [Option.map_some', Option.some.injEq] at hl'
        subst hl'
        obtain ⟨hp0, hpmax⟩ := hm k p hl
        unfold maxInt64 at hpmax
        simp only [debitBal]
        by_cases hk : k ∈ backerIDsOf tp.Backers
        · obtain ⟨b, hb, rfl⟩ := List.mem_map.mp hk
          obtain ⟨q, hq, hle⟩ := (not_offends_iff players b).mp (hchk b hb)
          rw [hl] at hq
          injection hq with hq
          subst hq
          have hb0 := hpts b hb
          rw [if_pos hk, pointsOf_of_nodup _ hnd b hb,
            wrap64_eq (by unfold isInt64; omega)]
          omega
        · rw [if_neg hk]; exact hp0
  · intro tp prize tw hP htw hno k p' hl'
    have hpts := NewTournWinner_backers hP htw
    rcases PayoutPrize_snd tw players with hsame | ⟨_, hmap⟩
    · rw [hsame] at hl'
      exact (hm k p' hl').1
    · rw [hmap, lookup_payoutApply] at hl'
      cases hl : players.lookup k with
      | none => rw [hl] at hl'; simp at hl'
      | some p =>
        rw [hl] at hl'
        simp only [Option.map_some', Option.some.injEq] at hl'
        subst hl'
        obtain ⟨hp0, hpmax⟩ := hm k p hl
        have hsum := hno k p hl
        have hnn := pointsOf_nonneg k tw.Backers hpts
        unfold maxInt64 at hpmax hsum
        simp only [creditBal]
        by_cases hk : k ∈ backerIDsOf tw.Backers
        · rw [if_pos hk, wrap64_eq (by unfold isInt64; omega)]
          omega
        · rw [if_neg hk]; exact hp0


theorem nonneg_balances_invariant_witness :
    (∀ k p, PlayerMap.lookup k [("P1", ⟨"P1", 100⟩), ("P2", ⟨"P2", 0⟩)] = some p →
      0 ≤ p.Balance ∧ p.Balance ≤ maxInt64) ∧
    (∀ k p, ((TournPlayer.mk 7 "P1" 3 [⟨"P1", 2⟩, ⟨"P2", 1⟩]).DeductDeposit
        [("P1", ⟨"P1", 100⟩), ("P2", ⟨"P2", 0⟩)]).2.lookup k = some p → 0 ≤ p.Balance) ∧
    (∀ k p, ((TournWinner.mk 7 "P1" 5 [⟨"P1", 3⟩, ⟨"P2", 2⟩]).PayoutPrize
        [("P1", ⟨"P1", 100⟩), ("P2", ⟨"P2", 0⟩)]).2.lookup k = some p → 0 ≤ p.Balance) := by
  have hmem : ∀ k p, PlayerMap.lookup k [("P1", ⟨"P1", 100⟩), ("P2", ⟨"P2", 0⟩)] = some p →
      p = ⟨"P1", 100⟩ ∨ p = ⟨"P2", 0⟩ := by
    intro k p h
    have := lookup_mem h
    simp only [List.mem_cons, Prod.mk.injEq, List.mem_singleton, List.not_mem_nil, or_false] at this
    rcases this with ⟨_, h⟩ | ⟨_, h⟩
    · left; exact h
    · right; exact h
  have hm : ∀ k p, PlayerMap.lookup k [("P1", ⟨"P1", 100⟩), ("P2", ⟨"P2", 0⟩)] = some p →
      0 ≤ p.Balance ∧ p.Balance ≤ maxInt64 := by
    intro k p h
    rcases hmem k p h with rfl | rfl <;> decide
  have h := nonneg_balances_invariant [("P1", ⟨"P1", 100⟩), ("P2", ⟨"P2", 0⟩)] hm
  refine ⟨hm, ?_, ?_⟩
  · exact h.2.1 (Tournament.mk 7 3 true) "P1" ["P2"]
      (TournPlayer.mk 7 "P1" 3 [⟨"P1", 2⟩, ⟨"P2", 1⟩]) (by decide) (by rfl)
  · refine h.2.2 (TournPlayer.mk 7 "P1" 3 [⟨"P1", 2⟩, ⟨"P2", 1⟩]) 5
      (TournWinner.mk 7 "P1" 5 [⟨"P1", 3⟩, ⟨"P2", 2⟩]) (by decide) (by rfl) ?_
    intro k p hl
    rcases hmem k p hl with rfl | rfl
    · have hk : k = "P1" ∨ k ≠ "P1" := em _
      have hb : pointsOf k (TournWinner.mk 7 "P1" 5 [⟨"P1", 3⟩, ⟨"P2", 2⟩]).Backers ≤ 5 := by
        simp only [pointsOf, pointsSum, List.filter_cons, List.filter_nil]
        split_ifs <;> simp
      unfold maxInt64
      simp only at hb ⊢
      omega
    · have hb : pointsOf k (TournWinner.mk 7 "P1" 5 [⟨"P1", 3⟩, ⟨"P2", 2⟩]).Backers ≤ 5 := by
        simp only [pointsOf, pointsSum, List.filter_cons, List.filter_nil]
        split_ifs <;> simp
      unfold maxInt64
      simp only at hb ⊢
      omega

/-- C5 as stated fails for (c): in the map below every balance is a non-negative
`int64`; the result is the one `NewTournWinner` returns for prize 2; `PayoutPrize`
succeeds, and the balance of `P1` ends at `-2^63`, below zero. -/
theorem nonneg_balances_invariant_counterexample :
    (∀ e ∈ ([("P1", ⟨"P1", 9223372036854775807⟩), ("P2", ⟨"P2", 0⟩)] : PlayerMap),
      0 ≤ e.2.Balance ∧ isInt64 e.2.Balance) ∧
    (Tournament.mk 7 2 true).NewTournPlayer "P1" ["P2"] =
      .ok (TournPlayer.mk 7 "P1" 2 [⟨"P1", 1⟩, ⟨"P2", 1⟩]) ∧
    (TournPlayer.mk 7 "P1" 2 [⟨"P1", 1⟩, ⟨"P2", 1⟩]).NewTournWinner 2 =
      .ok (TournWinner.mk 7 "P1" 2 [⟨"P1", 1⟩, ⟨"P2", 1⟩]) ∧
    (TournWinner.mk 7 "P1" 2 [⟨"P1", 1⟩, ⟨"P2", 1⟩]).PayoutPrize
        [("P1", ⟨"P1", 9223372036854775807⟩), ("P2", ⟨"P2", 0⟩)] =
      (none, [("P1", ⟨"P1", -9223372036854775808⟩), ("P2", ⟨"P2", 1⟩)]) ∧
    ((TournWinner.mk 7 "P1" 2 [⟨"P1", 1⟩, ⟨"P2", 1⟩]).PayoutPrize
        [("P1", ⟨"P1", 9223372036854775807⟩), ("P2", ⟨"P2", 0⟩)]).2.lookup "P1" =
      some ⟨"P1", -9223372036854775808⟩ ∧
    ¬ ∀ e ∈ ((TournWinner.mk 7 "P1" 2 [⟨"P1", 1⟩, ⟨"P2", 1⟩]).PayoutPrize
        [("P1", ⟨"P1", 9223372036854775807⟩), ("P2", ⟨"P2", 0⟩)]).2, 0 ≤ e.2.Balance := by
  refine ⟨by decide, by rfl, by rfl, by decide, by decide, by decide⟩

/-- C9: with `n = 1 + len(backerIDs)`, `NewTournPlayer` returns
`ErrTooManyBackers` when `EntryDeposit < n`; otherwise `ErrTournamentFinished`
when the tournament is not active; otherwise `ErrDuplicateBackers` when the list
`playerID :: backerIDs` contains a repeated ID; otherwise it succeeds.  A failing
call returns an error and no entry. -/
theorem NewTournPlayer_outcome (t : Tournament) (playerID : String) (backerIDs : List String) :
    (t.EntryDeposit < 1 + (backerIDs.length : Int) →
      t.NewTournPlayer playerID backerIDs = .error ErrTooManyBackers) ∧
    (¬ t.EntryDeposit < 1 + (backerIDs.length : Int) → t.Active = false →
      t.NewTournPlayer playerID backerIDs = .error ErrTournamentFinished) ∧
    (¬ t.EntryDeposit < 1 + (backerIDs.length : Int) → t.Active = true →
      ¬ (playerID :: backerIDs).Nodup →
      t.NewTournPlayer playerID backerIDs = .error ErrDuplicateBackers) ∧
    (¬ t.EntryDeposit < 1 + (backerIDs.length : Int) → t.Active = true →
      (playerID :: backerIDs).Nodup →
      ∃ tp, t.NewTournPlayer playerID backerIDs = .ok tp) := by
  have hlen : (((playerID :: backerIDs).length : Nat) : Int) = 1 + (backerIDs.length : Int) := by
    simp only [List.length_cons]; push_cast; ring
  refine ⟨?_, ?_, ?_, ?_⟩
  · intro h
    unfold Tournament.NewTournPlayer
    simp only [hlen, if_pos h]
  · intro h ha
    unfold Tournament.NewTournPlayer
    simp only [hlen, if_neg h, ha, Bool.not_false, if_true]
  · intro h ha hd
    have hdup : hasDuplicates (playerID :: backerIDs) = true := by
      cases hc : hasDuplicates (playerID :: backerIDs) with
      | true => rfl
      | false => exact absurd ((hasDuplicates_eq_false _).mp hc) hd
    unfold Tournament.NewTournPlayer
    simp only [hlen, if_neg h, ha, Bool.not_true, hdup, if_true]
    simp
  · intro h ha hd
    have hdup : hasDuplicates (playerID :: backerIDs) = false := (hasDuplicates_eq_false _).mpr hd
    unfold Tournament.NewTournPlayer
    simp only [hlen, if_neg h, ha, Bool.not_true, hdup]
    simp

theorem NewTournPlayer_outcome_witness :
    (Tournament.mk 123 3 true).NewTournPlayer "P1" ["P2", "P3", "P4"] = .error ErrTooManyBackers ∧
    (Tournament.mk 123 1 false).NewTournPlayer "P1" [] = .error ErrTournamentFinished ∧
    (Tournament.mk 123 100 true).NewTournPlayer "P1" ["P1", "P2"] = .error ErrDuplicateBackers ∧
    (∃ tp, (Tournament.mk 123 100 true).NewTournPlayer "P1" ["P2", "P3"] = .ok tp) :=
  ⟨(NewTournPlayer_outcome (Tournament.mk 123 3 true) "P1" ["P2", "P3", "P4"]).1 (by decide),
   (NewTournPlayer_outcome (Tournament.mk 123 1 false) "P1" []).2.1 (by decide) rfl,
   (NewTournPlayer_outcome (Tournament.mk 123 100 true) "P1" ["P1", "P2"]).2.2.1
     (by decide) rfl (by decide),
   (NewTournPlayer_outcome (Tournament.mk 123 100 true) "P1" ["P2", "P3"]).2.2.2
     (by decide) rfl (by decide)⟩

/-- C10: whenever `NewTournPlayer` succeeds, the returned entry has the
tournament's ID, the primary player, `Fee = EntryDeposit`, and a backer list
whose IDs are, in order, `playerID :: backerIDs` and whose points are, in order,
`splitPoints EntryDeposit (1 + len backerIDs)`.  (The receiver is only read by
the source, so the tournament is the same before and after.)  For deposit 100,
primary `P1` and backers `P2`, `P3` the backers are
`[{P1,34},{P2,33},{P3,33}]`. -/
theorem NewTournPlayer_entry (t : Tournament) (playerID : String) (backerIDs : List String)
    (tp : TournPlayer) (h : t.NewTournPlayer playerID backerIDs = .ok tp) :
    tp.TournamentID = t.ID ∧ tp.PlayerID = playerID ∧ tp.Fee = t.EntryDeposit ∧
    tp.Backers.map Backer.PlayerID = playerID :: backerIDs ∧
    tp.Backers.map Backer.Points = splitPoints t.EntryDeposit (1 + (backerIDs.length : Int)) ∧
    (t.EntryDeposit = 100 → playerID = "P1" → backerIDs = ["P2", "P3"] →
      tp.Backers = [⟨"P1", 34⟩, ⟨"P2", 33⟩, ⟨"P3", 33⟩]) := by
  obtain ⟨hn, _, _, rfl⟩ := NewTournPlayer_ok h
  have hlen := splitPoints_length t.EntryDeposit ((backerIDs.length : Int) + 1) (by omega)
  have hids := zipBackers_ids (fun s : String => s) (playerID :: backerIDs)
    (splitPoints t.EntryDeposit ((backerIDs.length : Int) + 1))
    (by simp only [List.length_cons]; omega)
  have hpts := zipBackers_points (fun s : String => s) (playerID :: backerIDs)
    (splitPoints t.EntryDeposit ((backerIDs.length : Int) + 1))
    (by simp only [List.length_cons]; omega)
  simp only [List.map_id'] at hids
  refine ⟨rfl, rfl, rfl, hids, ?_, ?_⟩
  · have e : 1 + (backerIDs.length : Int) = (backerIDs.length : Int) + 1 := by ring
    rw [e]
    exact hpts
  · intro hD hp hb
    simp only
    rw [hD, hp, hb]
    decide

theorem NewTournPlayer_entry_witness :
    (Tournament.mk 123 100 true).NewTournPlayer "P1" ["P2", "P3"] =
      .ok ⟨123, "P1", 100, [⟨"P1", 34⟩, ⟨"P2", 33⟩, ⟨"P3", 33⟩]⟩ ∧
    (TournPlayer.mk 123 "P1" 100 [⟨"P1", 34⟩, ⟨"P2", 33⟩, ⟨"P3", 33⟩]).Backers.map Backer.Points =
      splitPoints 100 (1 + (2 : Nat)) :=
  ⟨by rfl, (NewTournPlayer_entry (Tournament.mk 123 100 true) "P1" ["P2", "P3"]
    ⟨123, "P1", 100, [⟨"P1", 34⟩, ⟨"P2", 33⟩, ⟨"P3", 33⟩]⟩ (by rfl)).2.2.2.2.1⟩


/-! ## The split as a table of shares -/

theorem splitLoop_eq_map_nonneg (q : Int) (k : Nat) : ∀ r : Int, 0 ≤ r →
    (0 < r → isInt64 (q + 1)) → r ≤ maxInt64 →
    splitLoop q r k = (List.range k).map (fun (i : Nat) => if (i : Int) < r then q + 1 else q) := by
  induction k with
  | zero => intro r _ _ _; simp [splitLoop]
  | succ k ih =>
    intro r h0 hq hmax
    unfold maxInt64 at hmax
    rw [List.range_succ_eq_map, List.map_cons, List.map_map]
    unfold splitLoop
    by_cases hr : 0 < r
    · have e1 : wrap64 (q + 1) = q + 1 := wrap64_eq (hq hr)
      have e2 : wrap64 (r - 1) = r - 1 := wrap64_eq (by unfold isInt64; omega)
      rw [if_pos hr, e1, e2, ih (r - 1) (by omega) (fun _ => hq hr) (by unfold maxInt64; omega)]
      have h0' : ((0 : Nat) : Int) < r := by push_cast; omega
      rw [if_pos h0']
      congr 1
      · apply List.map_congr_left
        intro i _
        have hiff : ((i : Int) < r - 1) ↔ (((i + 1 : Nat) : Int) < r) := by
          push_cast; omega
        simp only [Function.comp, Nat.succ_eq_add_one, hiff]
    · have hr0 : r = 0 := by omega
      subst hr0
      rw [if_neg hr, if_pos rfl,
        ih 0 (le_refl 0) (fun h => absurd h (lt_irrefl 0)) (by unfold maxInt64; omega)]
      have h0' : ¬ (((0 : Nat) : Int) < 0) := by simp
      rw [if_neg h0']
      refine congrArg (List.cons q) (List.map_congr_left ?_)
      intro i _
      have h1 : ¬ ((i : Int) < 0) := by omega
      have h2 : ¬ (((i + 1 : Nat) : Int) < 0) := by omega
      simp only [Function.comp, Nat.succ_eq_add_one, if_neg h1, if_neg h2]

theorem splitLoop_eq_map_nonpos (q : Int) (k : Nat) : ∀ r : Int, r ≤ 0 →
    (r < 0 → isInt64 (q - 1)) → minInt64 ≤ r →
    splitLoop q r k = (List.range k).map (fun (i : Nat) => if (i : Int) < -r then q - 1 else q) := by
  induction k with
  | zero => intro r _ _ _; simp [splitLoop]
  | succ k ih =>
    intro r h0 hq hmin
    unfold minInt64 at hmin
    rw [List.range_succ_eq_map, List.map_cons, List.map_map]
    unfold splitLoop
    by_cases hr : r < 0
    · have e1 : wrap64 (q - 1) = q - 1 := wrap64_eq (hq hr)
      have e2 : wrap64 (r + 1) = r + 1 := wrap64_eq (by unfold isInt64; omega)
      rw [if_neg (by omega), if_neg (by omega), e1, e2,
        ih (r + 1) (by omega) (fun _ => hq hr) (by unfold minInt64; omega)]
      have h0' : ((0 : Nat) : Int) < -r := by push_cast; omega
      rw [if_pos h0']
      congr 1
      · apply List.map_congr_left
        intro i _
        have hiff : ((i : Int) < -(r + 1)) ↔ (((i + 1 : Nat) : Int) < -r) := by
          push_cast; omega
        simp only [Function.comp, Nat.succ_eq_add_one, hiff]
    · have hr0 : r = 0 := by omega
      subst hr0
      rw [if_neg (lt_irrefl 0), if_pos rfl,
        ih 0 (le_refl 0) (fun h => absurd h (lt_irrefl 0)) (by unfold minInt64; omega)]
      have h0' : ¬ (((0 : Nat) : Int) < -0) := by simp
      rw [if_neg h0']
      refine congrArg (List.cons q) (List.map_congr_left ?_)
      intro i _
      have h1 : ¬ ((i : Int) < -0) := by omega
      have h2 : ¬ (((i + 1 : Nat) : Int) < -0) := by omega
      simp only [Function.comp, Nat.succ_eq_add_one, if_neg h1, if_neg h2]

/-- On every `int64` total the loop of the source computes the reference split. -/
theorem splitPoints_eq_splitPointsRef (T n : Int) (hT : isInt64 T) :
    splitPoints T n = splitPointsRef T n := by
  unfold splitPoints splitPointsRef
  by_cases hn : n ≤ 0
  · rw [if_pos hn, if_pos hn]
  · rw [if_neg hn, if_neg hn]
    have hn1 : 1 ≤ n := by omega
    obtain ⟨hsum, hpos, hneg⟩ := tdiv_tmod_spec T n (by omega)
    obtain ⟨hw, hr, hq1, hq2⟩ := split_start T n hT hn1
    unfold isInt64 at hr
    rw [hw]
    by_cases h : 0 ≤ T
    · obtain ⟨_, hr0, hrn⟩ := hpos h
      rw [splitLoop_eq_map_nonneg _ _ _ hr0 hq1 (by unfold maxInt64; omega)]
      apply List.map_congr_left
      intro i _
      by_cases hi : (i : Int) < T.tmod n
      · have : 0 < T.tmod n := by omega
        simp [hi, this]
      · have h2 : ¬ T.tmod n < 0 := by omega
        simp [hi, h2]
    · obtain ⟨_, hr0, hrn⟩ := hneg (by omega)
      rw [splitLoop_eq_map_nonpos _ _ _ hr0 hq2 (by unfold minInt64; omega)]
      apply List.map_congr_left
      intro i _
      have habs : |T.tmod n| = -T.tmod n := abs_of_nonpos hr0
      have h1 : ¬ 0 < T.tmod n := by omega
      rw [habs]
      by_cases hi : (i : Int) < -T.tmod n
      · have : T.tmod n < 0 := by omega
        simp [hi, this, h1]
      · simp [hi, h1]


theorem splitPoints_nonpos_count (T n : Int) (hn : n ≤ 0) : splitPoints T n = [] := by
  unfold splitPoints
  rw [if_pos hn]

theorem splitPoints_length_nat (T : Int) (k : Nat) : (splitPoints T (k : Int)).length = k := by
  cases k with
  | zero => rw [splitPoints_nonpos_count T _ (by simp)]; rfl
  | succ k =>
    have h := splitPoints_length T ((k + 1 : Nat) : Int) (by push_cast; omega)
    exact_mod_cast h

/-- A total of at least `n ≥ 1` has a truncated quotient of at least 1. -/
theorem tdiv_pos_of_le (T n : Int) (hn : 1 ≤ n) (hT : n ≤ T) : 1 ≤ T.tdiv n := by
  obtain ⟨hsum, hpos, _⟩ := tdiv_tmod_spec T n (by omega)
  obtain ⟨_, _, hrn⟩ := hpos (by omega)
  by_contra hq
  have hq0 : T.tdiv n ≤ 0 := by omega
  have : n * T.tdiv n ≤ 0 := by nlinarith
  omega

/-- The shares of a split, relative to the truncated quotient `q`: all in
`{q, q + 1}` for a total `≥ 0`, all in `{q - 1, q}` for a total `< 0`. -/
theorem splitPoints_mem_cases (T n : Int) (hT : isInt64 T) (hn : 1 ≤ n) :
    (0 ≤ T → ∀ x ∈ splitPoints T n, x = T.tdiv n ∨ x = T.tdiv n + 1) ∧
    (T < 0 → ∀ x ∈ splitPoints T n, x = T.tdiv n ∨ x = T.tdiv n - 1) := by
  obtain ⟨_, hpos, hneg⟩ := tdiv_tmod_spec T n (by omega)
  rw [splitPoints_eq_splitPointsRef T n hT]
  unfold splitPointsRef
  rw [if_neg (by omega)]
  constructor
  · intro h x hx
    obtain ⟨_, hr0, _⟩ := hpos h
    obtain ⟨i, _, rfl⟩ := List.mem_map.mp hx
    have h2 : ¬ T.tmod n < 0 := by omega
    by_cases h1 : 0 < T.tmod n ∧ (i : Int) < T.tmod n
    · right; simp only [if_pos h1]
    · left; simp only [if_neg h1, h2, false_and, if_false]
  · intro h x hx
    obtain ⟨_, hr0, _⟩ := hneg h
    obtain ⟨i, _, rfl⟩ := List.mem_map.mp hx
    have h1 : ¬ (0 < T.tmod n ∧ (i : Int) < T.tmod n) := by omega
    by_cases h2 : T.tmod n < 0 ∧ (i : Int) < |T.tmod n|
    · right; simp only [if_neg h1, if_pos h2]
    · left; simp only [if_neg h1, if_neg h2]

/-- C11: every entry returned by a successful `NewTournPlayer` (on a tournament
whose deposit is an `int64`) is well formed: its backer list is non-empty, its
first backer is the primary player, the backer IDs are pairwise distinct, and
every backer has at least 1 point. -/
theorem NewTournPlayer_wellFormed (t : Tournament) (playerID : String)
    (backerIDs : List String) (tp : TournPlayer) (hD : isInt64 t.EntryDeposit)
    (h : t.NewTournPlayer playerID backerIDs = .ok tp) :
    tp.Backers ≠ [] ∧ tp.Backers.head?.map Backer.PlayerID = some playerID ∧
    (tp.Backers.map Backer.PlayerID).Nodup ∧ ∀ b ∈ tp.Backers, 1 ≤ b.Points := by
  obtain ⟨hids, hnd, _⟩ := NewTournPlayer_backers hD h
  obtain ⟨hn, _, _, htp⟩ := NewTournPlayer_ok h
  unfold backerIDsOf at hids hnd
  refine ⟨?_, ?_, hnd, ?_⟩
  · intro he
    rw [he] at hids
    simp at hids
  · cases hb : tp.Backers with
    | nil => rw [hb] at hids; simp at hids
    | cons b bs =>
      rw [hb] at hids
      simp only [List.map_cons, List.cons.injEq] at hids
      simp [hids.1]
  · intro b hb
    have hlen := splitPoints_length t.EntryDeposit ((backerIDs.length : Int) + 1) (by omega)
    have hpts := zipBackers_points (fun s : String => s) (playerID :: backerIDs)
      (splitPoints t.EntryDeposit ((backerIDs.length : Int) + 1))
      (by simp only [List.length_cons]; omega)
    have hmem : b.Points ∈ splitPoints t.EntryDeposit ((backerIDs.length : Int) + 1) := by
      rw [htp] at hb
      simp only at hb
      rw [← hpts]
      exact List.mem_map_of_mem Backer.Points hb
    have hq := tdiv_pos_of_le t.EntryDeposit ((backerIDs.length : Int) + 1) (by omega) hn
    rcases (splitPoints_mem_cases _ _ hD (by omega)).1 (by omega) _ hmem with hx | hx
    · omega
    · omega

theorem NewTournPlayer_wellFormed_witness :
    isInt64 100 ∧
    (Tournament.mk 123 100 true).NewTournPlayer "P1" ["P2", "P3"] =
      .ok ⟨123, "P1", 100, [⟨"P1", 34⟩, ⟨"P2", 33⟩, ⟨"P3", 33⟩]⟩ ∧
    (([⟨"P1", 34⟩, ⟨"P2", 33⟩, ⟨"P3", 33⟩] : List Backer) ≠ [] ∧
      ([⟨"P1", 34⟩, ⟨"P2", 33⟩, ⟨"P3", 33⟩] : List Backer).head?.map Backer.PlayerID = some "P1" ∧
      (([⟨"P1", 34⟩, ⟨"P2", 33⟩, ⟨"P3", 33⟩] : List Backer).map Backer.PlayerID).Nodup ∧
      ∀ b ∈ ([⟨"P1", 34⟩, ⟨"P2", 33⟩, ⟨"P3", 33⟩] : List Backer), 1 ≤ b.Points) :=
  ⟨by decide, by rfl,
    NewTournPlayer_wellFormed (Tournament.mk 123 100 true) "P1" ["P2", "P3"]
      ⟨123, "P1", 100, [⟨"P1", 34⟩, ⟨"P2", 33⟩, ⟨"P3", 33⟩]⟩ (by decide) (by rfl)⟩

/-- C12: `NewTournWinner` returns `ErrInvalidTournamentPrize` (an error, no
result) if and only if `prize < 0`; otherwise it returns a result with the
entry's `TournamentID` and `PlayerID`, the given prize, and a backer list of the
same length as the entry's, with the same player IDs in the same order and with
the points `splitPoints prize (len backers)`.  (The receiver is only read by the
source.)  Prize 500 over three backers gives the shares 167, 167, 166. -/
theorem NewTournWinner_spec (tp : TournPlayer) (prize : Int) :
    (tp.NewTournWinner prize = .error ErrInvalidTournamentPrize ↔ prize < 0) ∧
    (¬ prize < 0 → ∃ tw, tp.NewTournWinner prize = .ok tw ∧
      tw.TournamentID = tp.TournamentID ∧ tw.PlayerID = tp.PlayerID ∧ tw.Prize = prize ∧
      tw.Backers.length = tp.Backers.length ∧
      tw.Backers.map Backer.PlayerID = tp.Backers.map Backer.PlayerID ∧
      tw.Backers.map Backer.Points = splitPoints prize (tp.Backers.length : Int)) ∧
    splitPoints 500 ((3 : Nat) : Int) = [167, 167, 166] := by
  have hlen := splitPoints_length_nat prize tp.Backers.length
  refine ⟨?_, ?_, by decide⟩
  · constructor
    · intro h
      by_contra hp
      rw [NewTournWinner_ok tp prize (by omega)] at h
      cases h
    · intro hp
      unfold TournPlayer.NewTournWinner
      rw [if_pos hp]
  · intro hp
    refine ⟨_, NewTournWinner_ok tp prize (by omega), rfl, rfl, rfl, ?_, ?_, ?_⟩
    · simp only [List.length_zipWith, hlen, min_self]
    · exact zipBackers_ids Backer.PlayerID tp.Backers _ (by omega)
    · exact zipBackers_points Backer.PlayerID tp.Backers _ (by omega)

theorem NewTournWinner_spec_witness :
    ∃ tw, (TournPlayer.mk 123 "P1" 100 [⟨"P1", 34⟩, ⟨"P3", 33⟩, ⟨"P3", 33⟩]).NewTournWinner 500
        = .ok tw ∧
      tw.TournamentID = 123 ∧ tw.PlayerID = "P1" ∧ tw.Prize = 500 ∧
      tw.Backers.length = 3 ∧
      tw.Backers.map Backer.PlayerID = ["P1", "P3", "P3"] ∧
      tw.Backers.map Backer.Points = splitPoints 500 ((3 : Nat) : Int) :=
  (NewTournWinner_spec (TournPlayer.mk 123 "P1" 100 [⟨"P1", 34⟩, ⟨"P3", 33⟩, ⟨"P3", 33⟩])
    500).2.1 (by decide)


/-- C13: `splitPoints` equals the reference largest-remainder definition on
every `int64` total: empty for `n ≤ 0` whatever the total; for `n ≥ 1`, with `q`
and `r` the truncating quotient and remainder (`r` has the sign of the total),
position `i` holds `q + 1` when `r > 0` and `i < r`, `q - 1` when `r < 0` and
`i < |r|`, and `q` otherwise.  The four examples of the claim are included. -/
theorem splitPoints_refines_reference (T n : Int) (hT : isInt64 T) :
    splitPoints T n = splitPointsRef T n ∧
    (n ≤ 0 → splitPoints T n = []) ∧
    (1 ≤ n → (0 ≤ T → 0 ≤ T.tmod n) ∧ (T ≤ 0 → T.tmod n ≤ 0)) ∧
    splitPoints 4 5 = [1, 1, 1, 1, 0] ∧ splitPoints 100 3 = [34, 33, 33] ∧
    splitPoints (-3) 2 = [-2, -1] ∧ splitPoints 5 0 = [] := by
  refine ⟨splitPoints_eq_splitPointsRef T n hT, splitPoints_nonpos_count T n, ?_,
    by decide, by decide, by decide, by decide⟩
  intro hn
  obtain ⟨_, hpos, hneg⟩ := tdiv_tmod_spec T n (by omega)
  constructor
  · intro h; exact (hpos h).2.1
  · intro h
    by_cases h0 : T = 0
    · subst h0; simp
    · exact (hneg (by omega)).2.1

theorem splitPoints_refines_reference_witness :
    isInt64 (-7) ∧ splitPoints (-7) 3 = splitPointsRef (-7) 3 ∧
    splitPointsRef (-7) 3 = [-3, -2, -2] :=
  ⟨by decide, (splitPoints_refines_reference (-7) 3 (by decide)).1, by decide⟩

/-- C14: for every `int64` total `T` and `n ≥ 1`, every element of
`splitPoints T n` is within 1 of the truncating quotient of `T` by `n`, and any
two elements differ by at most 1. -/
theorem splitPoints_near_quotient (T n : Int) (hT : isInt64 T) (hn : 1 ≤ n) :
    (∀ x ∈ splitPoints T n, |x - T.tdiv n| ≤ 1) ∧
    (∀ x ∈ splitPoints T n, ∀ y ∈ splitPoints T n, |x - y| ≤ 1) := by
  obtain ⟨hpos, hneg⟩ := splitPoints_mem_cases T n hT hn
  by_cases h : 0 ≤ T
  · constructor
    · intro x hx
      rw [abs_le]
      rcases hpos h x hx with e | e <;> omega
    · intro x hx y hy
      rw [abs_le]
      rcases hpos h x hx with e | e <;> rcases hpos h y hy with e' | e' <;> omega
  · constructor
    · intro x hx
      rw [abs_le]
      rcases hneg (by omega) x hx with e | e <;> omega
    · intro x hx y hy
      rw [abs_le]
      rcases hneg (by omega) x hx with e | e <;>
        rcases hneg (by omega) y hy with e' | e' <;> omega

theorem splitPoints_near_quotient_witness :
    isInt64 (-3) ∧ (1 : Int) ≤ 2 ∧
    (∀ x ∈ splitPoints (-3) 2, |x - (-3 : Int).tdiv 2| ≤ 1) ∧
    (∀ x ∈ splitPoints (-3) 2, ∀ y ∈ splitPoints (-3) 2, |x - y| ≤ 1) :=
  ⟨by decide, by decide, splitPoints_near_quotient (-3) 2 (by decide) (by decide)⟩

/-! ## Tournament life cycle -/

theorem MarkFinished_inactive (t : Tournament) (h : t.Active = false) :
    t.MarkFinished = (some ErrTournamentFinished, t) := by
  unfold Tournament.MarkFinished
  simp [h]

theorem MarkFinished_active (t : Tournament) (h : t.Active = true) :
    t.MarkFinished = (none, { t with Active := false }) := by
  unfold Tournament.MarkFinished
  simp [h]

theorem MarkFinished_result_inactive (t : Tournament) : (t.MarkFinished).2.Active = false := by
  cases h : t.Active with
  | false => rw [MarkFinished_inactive t h]; exact h
  | true => rw [MarkFinished_active t h]

theorem step_inactive (t : Tournament) (h : t.Active = false) (op : TournOp) :
    t.step op = t := by
  cases op with
  | markFinished => simp only [Tournament.step, MarkFinished_inactive t h]
  | newTournPlayer p bs => rfl

theorem run_inactive (ops : List TournOp) : ∀ t : Tournament, t.Active = false →
    t.run ops = t := by
  induction ops with
  | nil => intro t _; rfl
  | cons op ops ih =>
    intro t h
    unfold Tournament.run
    rw [List.foldl_cons, step_inactive t h op]
    exact ih t h

/-- C15: `MarkFinished` returns an error, `ErrTournamentFinished`, if and only
if the tournament is not active, and then leaves it unmodified; otherwise it
returns no error, sets `Active` to false and keeps `ID` and `EntryDeposit`.
Hence a second `MarkFinished` on the same tournament always fails and changes
nothing, and no sequence of `MarkFinished` and `NewTournPlayer` operations makes
a finished tournament active again (it does not change it at all). -/
theorem MarkFinished_spec (t : Tournament) :
    ((t.MarkFinished).1 ≠ none ↔ t.Active = false) ∧
    (t.Active = false → t.MarkFinished = (some ErrTournamentFinished, t)) ∧
    (t.Active = true → (t.MarkFinished).1 = none ∧ (t.MarkFinished).2.Active = false ∧
      (t.MarkFinished).2.ID = t.ID ∧ (t.MarkFinished).2.EntryDeposit = t.EntryDeposit) ∧
    ((t.MarkFinished).2.MarkFinished = (some ErrTournamentFinished, (t.MarkFinished).2)) ∧
    (∀ ops : List TournOp, t.Active = false →
      t.run ops = t ∧ (t.run ops).Active = false) := by
  refine ⟨?_, MarkFinished_inactive t, ?_, ?_, ?_⟩
  · cases h : t.Active with
    | false => rw [MarkFinished_inactive t h]; simp
    | true => rw [MarkFinished_active t h]; simp
  · intro h
    rw [MarkFinished_active t h]
    exact ⟨rfl, rfl, rfl, rfl⟩
  · exact MarkFinished_inactive _ (MarkFinished_result_inactive t)
  · intro ops h
    have := run_inactive ops t h
    exact ⟨this, by rw [this]; exact h⟩

theorem MarkFinished_spec_witness :
    ((Tournament.mk 7 100 true).MarkFinished = (none, Tournament.mk 7 100 false)) ∧
    ((Tournament.mk 7 100 true).MarkFinished).2.MarkFinished =
      (some ErrTournamentFinished, Tournament.mk 7 100 false) ∧
    (Tournament.mk 7 100 false).run
      [.markFinished, .newTournPlayer "P1" ["P2"], .markFinished] = Tournament.mk 7 100 false :=
  ⟨by decide, (MarkFinished_spec (Tournament.mk 7 100 true)).2.2.2.1,
    ((MarkFinished_spec (Tournament.mk 7 100 false)).2.2.2.2 _ rfl).1⟩

/-- C16: `NewTournament` returns `ErrInvalidTournamentDeposit` (an error, no
tournament) if and only if `deposit ≤ 0`; otherwise it returns the tournament
with the given ID, `EntryDeposit = deposit` (hence `> 0`) and `Active = true`. -/
theorem NewTournament_spec (tournamentID : Int) (deposit : Int) :
    (NewTournament tournamentID deposit = .error ErrInvalidTournamentDeposit ↔ deposit ≤ 0) ∧
    (¬ deposit ≤ 0 →
      NewTournament tournamentID deposit =
        .ok { ID := tournamentID, EntryDeposit := deposit, Active := true } ∧
      0 < deposit) := by
  unfold NewTournament
  refine ⟨?_, ?_⟩
  · constructor
    · intro he
      by_contra h
      rw [if_neg h] at he
      cases he
    · intro h
      rw [if_pos h]
  · intro h
    rw [if_neg h]
    exact ⟨rfl, by omega⟩

theorem NewTournament_spec_witness :
    NewTournament 1 1000 = .ok { ID := 1, EntryDeposit := 1000, Active := true } ∧
    NewTournament 1 0 = .error ErrInvalidTournamentDeposit :=
  ⟨((NewTournament_spec 1 1000).2 (by decide)).1, (NewTournament_spec 1 0).1.mpr (by decide)⟩


/-! ## Workflows over the store -/

theorem TournamentGet_ok {s : Store} {tournamentID : Int} {t : Tournament}
    (h : s.TournamentGet tournamentID = .ok t) : t.ID = tournamentID := by
  unfold Store.TournamentGet at h
  cases hf : s.tournaments.find? (fun t => t.ID = tournamentID) with
  | none => rw [hf] at h; cases h
  | some t' =>
    rw [hf] at h
    injection h with h
    subst h
    have := List.find?_some hf
    simpa using this

theorem TournPlayerInsert_existing (blobLen : List Backer → Nat) (s : Store) (tp : TournPlayer)
    (h : ∃ e ∈ s.entries, e.TournamentID = tp.TournamentID ∧ e.PlayerID = tp.PlayerID) :
    (blobLen tp.Backers ≤ TextMaxLength →
      s.TournPlayerInsert blobLen tp = .error .ErrAlreadyExists) ∧
    ∀ s1, s.TournPlayerInsert blobLen tp ≠ .ok s1 := by
  have hany : s.entries.any
      (fun e => e.TournamentID = tp.TournamentID ∧ e.PlayerID = tp.PlayerID) = true := by
    obtain ⟨e, he, h1, h2⟩ := h
    rw [List.any_eq_true]
    exact ⟨e, he, by simp [h1, h2]⟩
  unfold Store.TournPlayerInsert
  constructor
  · intro hb
    rw [if_neg (by omega), if_pos hany]
  · intro s1 hs
    by_cases hb : blobLen tp.Backers > TextMaxLength
    · rw [if_pos hb] at hs; cases hs
    · rw [if_neg hb, if_pos hany] at hs; cases hs

theorem join_tournament_missing (blobLen : List Backer → Nat) (s : Store) (tournamentID : Int)
    (playerID : String) (backerIDs : List String)
    (hg : s.TournamentGet tournamentID = .error .ErrNotFound) :
    joinTournament blobLen s tournamentID playerID backerIDs =
      ((some (.conflict ErrTournamentNotFound), none), s) := by
  unfold joinTournament
  simp only [hg]

theorem join_tournament_fault (blobLen : List Backer → Nat) (s : Store) (tournamentID : Int)
    (playerID : String) (backerIDs : List String) (e : DbError) (hne : e ≠ .ErrNotFound)
    (hg : s.TournamentGet tournamentID = .error e) :
    joinTournament blobLen s tournamentID playerID backerIDs =
      ((none, errorsWithMessage (some (.db e)) "getting tournament"), s) := by
  unfold joinTournament
  cases e with
  | ErrNotFound => exact absurd rfl hne
  | ErrAlreadyExists => simp only [hg]
  | other msg => simp only [hg]

theorem join_entry_refused (blobLen : List Backer → Nat) (s : Store) (tournamentID : Int)
    (playerID : String) (backerIDs : List String) (t : Tournament) (e : CoreError)
    (hg : s.TournamentGet tournamentID = .ok t)
    (hn : t.NewTournPlayer playerID backerIDs = .error e) :
    joinTournament blobLen s tournamentID playerID backerIDs =
      ((some (.conflict e), none), s) := by
  unfold joinTournament
  simp only [hg, hn]

theorem join_deduct_refused (blobLen : List Backer → Nat) (s : Store) (tournamentID : Int)
    (playerID : String) (backerIDs : List String) (t : Tournament) (tp : TournPlayer)
    (e : CoreError) (hg : s.TournamentGet tournamentID = .ok t)
    (hn : t.NewTournPlayer playerID backerIDs = .ok tp)
    (hd : (tp.DeductDeposit (s.PlayerSelectForUpdate (playerID :: backerIDs))).1 = some e) :
    joinTournament blobLen s tournamentID playerID backerIDs =
      ((some (.conflict e), none), s) := by
  have hd2 : tp.DeductDeposit (s.PlayerSelectForUpdate (playerID :: backerIDs)) =
      (some e, (tp.DeductDeposit (s.PlayerSelectForUpdate (playerID :: backerIDs))).2) := by
    rw [← hd]
  unfold joinTournament
  simp only [hg, hn]
  rw [hd2]

theorem join_insert (blobLen : List Backer → Nat) (s : Store) (tournamentID : Int)
    (playerID : String) (backerIDs : List String) (t : Tournament) (tp : TournPlayer)
    (hg : s.TournamentGet tournamentID = .ok t)
    (hn : t.NewTournPlayer playerID backerIDs = .ok tp)
    (hd : (tp.DeductDeposit (s.PlayerSelectForUpdate (playerID :: backerIDs))).1 = none) :
    joinTournament blobLen s tournamentID playerID backerIDs =
      (match s.TournPlayerInsert blobLen tp with
        | .error .ErrAlreadyExists => ((some (.conflict ErrDuplicateTournPlayer), none), s)
        | .error e =>
          ((none, errorsWithMessage (some (.db e)) "inserting tournament player"), s)
        | .ok s1 =>
          ((some .ok, none),
            (tp.DeductDeposit (s.PlayerSelectForUpdate (playerID :: backerIDs))).2.foldl
              (fun st acc => st.PlayerUpdate acc.2) s1)) := by
  have hd2 : tp.DeductDeposit (s.PlayerSelectForUpdate (playerID :: backerIDs)) =
      (none, (tp.DeductDeposit (s.PlayerSelectForUpdate (playerID :: backerIDs))).2) := by
    rw [← hd]
  unfold joinTournament
  simp only [hg, hn]
  rw [hd2]

/-- C17 (as amended): in every store that already holds an entry for
(tournament, player), a further `joinTournament` for the same tournament and
primary player never succeeds and leaves the store exactly as it was; it fails
with the conflict `ErrDuplicateTournPlayer` whenever the steps before the insert
pass (tournament found, `NewTournPlayer` and `DeductDeposit` succeed, the backer
blob fits), and otherwise with the failure of the first step that does not. -/
theorem joinTournament_existing_entry (blobLen : List Backer → Nat) (s : Store)
    (tournamentID : Int) (playerID : String) (backerIDs : List String)
    (h : ∃ e ∈ s.entries, e.TournamentID = tournamentID ∧ e.PlayerID = playerID) :
    (joinTournament blobLen s tournamentID playerID backerIDs).2 = s ∧
    (joinTournament blobLen s tournamentID playerID backerIDs).1.1 ≠ some .ok ∧
    (∀ t tp, s.TournamentGet tournamentID = .ok t →
      t.NewTournPlayer playerID backerIDs = .ok tp →
      (tp.DeductDeposit (s.PlayerSelectForUpdate (playerID :: backerIDs))).1 = none →
      blobLen tp.Backers ≤ TextMaxLength →
      (joinTournament blobLen s tournamentID playerID backerIDs).1 =
        (some (.conflict ErrDuplicateTournPlayer), none)) ∧
    (s.TournamentGet tournamentID = .error .ErrNotFound →
      (joinTournament blobLen s tournamentID playerID backerIDs).1 =
        (some (.conflict ErrTournamentNotFound), none)) ∧
    (∀ t e, s.TournamentGet tournamentID = .ok t →
      t.NewTournPlayer playerID backerIDs = .error e →
      (joinTournament blobLen s tournamentID playerID backerIDs).1 =
        (some (.conflict e), none)) ∧
    (∀ t tp e, s.TournamentGet tournamentID = .ok t →
      t.NewTournPlayer playerID backerIDs = .ok tp →
      (tp.DeductDeposit (s.PlayerSelectForUpdate (playerID :: backerIDs))).1 = some e →
      (joinTournament blobLen s tournamentID playerID backerIDs).1 =
        (some (.conflict e), none)) := by
  have key : ∀ t tp, s.TournamentGet tournamentID = .ok t →
      t.NewTournPlayer playerID backerIDs = .ok tp →
      ∃ e ∈ s.entries, e.TournamentID = tp.TournamentID ∧ e.PlayerID = tp.PlayerID := by
    intro t tp hg hn
    obtain ⟨_, _, _, rfl⟩ := NewTournPlayer_ok hn
    rw [TournamentGet_ok hg]
    exact h
  have main : (joinTournament blobLen s tournamentID playerID backerIDs).2 = s ∧
      (joinTournament blobLen s tournamentID playerID backerIDs).1.1 ≠ some .ok := by
    cases hg : s.TournamentGet tournamentID with
    | error e =>
      by_cases hne : e = .ErrNotFound
      · subst hne
        rw [join_tournament_missing blobLen s tournamentID playerID backerIDs hg]
        simp
      · rw [join_tournament_fault blobLen s tournamentID playerID backerIDs e hne hg]
        simp [errorsWithMessage]
    | ok t =>
      cases hn : t.NewTournPlayer playerID backerIDs with
      | error e =>
        rw [join_entry_refused blobLen s tournamentID playerID backerIDs t e hg hn]
        simp
      | ok tp =>
        cases hd : (tp.DeductDeposit (s.PlayerSelectForUpdate (playerID :: backerIDs))).1 with
        | some e =>
          rw [join_deduct_refused blobLen s tournamentID playerID backerIDs t tp e hg hn hd]
          simp
        | none =>
          rw [join_insert blobLen s tournamentID playerID backerIDs t tp hg hn hd]
          obtain ⟨_, hno⟩ := TournPlayerInsert_existing blobLen s tp (key t tp hg hn)
          cases hi : s.TournPlayerInsert blobLen tp with
          | ok s1 => exact absurd hi (hno s1)
          | error e => cases e <;> simp [errorsWithMessage]
  refine ⟨main.1, main.2, ?_, ?_, ?_, ?_⟩
  · intro t tp hg hn hd hb
    rw [join_insert blobLen s tournamentID playerID backerIDs t tp hg hn hd,
      (TournPlayerInsert_existing blobLen s tp (key t tp hg hn)).1 hb]
  · intro hg
    rw [join_tournament_missing blobLen s tournamentID playerID backerIDs hg]
  · intro t e hg hn
    rw [join_entry_refused blobLen s tournamentID playerID backerIDs t e hg hn]
  · intro t tp e hg hn hd
    rw [join_deduct_refused blobLen s tournamentID playerID backerIDs t tp e hg hn hd]

theorem joinTournament_existing_entry_witness :
    (∃ e ∈ (Store.mk [⟨"P1", 200⟩] [⟨1, 100, true⟩] [⟨1, "P1", 100, [⟨"P1", 100⟩]⟩] []).entries,
      e.TournamentID = 1 ∧ e.PlayerID = "P1") ∧
    joinTournament (fun _ => 0)
      (Store.mk [⟨"P1", 200⟩] [⟨1, 100, true⟩] [⟨1, "P1", 100, [⟨"P1", 100⟩]⟩] []) 1 "P1" [] =
      ((some (.conflict ErrDuplicateTournPlayer), none),
        Store.mk [⟨"P1", 200⟩] [⟨1, 100, true⟩] [⟨1, "P1", 100, [⟨"P1", 100⟩]⟩] []) := by
  have hex : ∃ e ∈ (Store.mk [⟨"P1", 200⟩] [⟨1, 100, true⟩]
      [⟨1, "P1", 100, [⟨"P1", 100⟩]⟩] []).entries, e.TournamentID = 1 ∧ e.PlayerID = "P1" :=
    ⟨⟨1, "P1", 100, [⟨"P1", 100⟩]⟩, by decide, by decide, by decide⟩
  have h := joinTournament_existing_entry (fun _ => 0)
    (Store.mk [⟨"P1", 200⟩] [⟨1, 100, true⟩] [⟨1, "P1", 100, [⟨"P1", 100⟩]⟩] []) 1 "P1" [] hex
  refine ⟨hex, Prod.ext ?_ h.1⟩
  exact h.2.2.1 ⟨1, 100, true⟩ ⟨1, "P1", 100, [⟨"P1", 100⟩]⟩ (by rfl) (by rfl) (by decide)
    (by decide)

/-- C17 as stated fails: player `P1` holds 100 and joins tournament 1 (deposit
100), which succeeds and leaves the balance 0 and the entry in the store; the
second join of `P1` to tournament 1 fails with `ErrNegativePlayerBalance`, not
with `ErrDuplicateTournPlayer` (the store is unchanged). -/
theorem joinTournament_existing_entry_counterexample :
    joinTournament (fun _ => 0) (Store.mk [⟨"P1", 100⟩] [⟨1, 100, true⟩] [] []) 1 "P1" [] =
      ((some .ok, none),
        Store.mk [⟨"P1", 0⟩] [⟨1, 100, true⟩] [⟨1, "P1", 100, [⟨"P1", 100⟩]⟩] []) ∧
    (∃ e ∈ (Store.mk [⟨"P1", 0⟩] [⟨1, 100, true⟩] [⟨1, "P1", 100, [⟨"P1", 100⟩]⟩] []).entries,
      e.TournamentID = 1 ∧ e.PlayerID = "P1") ∧
    joinTournament (fun _ => 0)
      (Store.mk [⟨"P1", 0⟩] [⟨1, 100, true⟩] [⟨1, "P1", 100, [⟨"P1", 100⟩]⟩] []) 1 "P1" [] =
      ((some (.conflict ErrNegativePlayerBalance), none),
        Store.mk [⟨"P1", 0⟩] [⟨1, 100, true⟩] [⟨1, "P1", 100, [⟨"P1", 100⟩]⟩] []) ∧
    (Response.conflict ErrNegativePlayerBalance ≠ Response.conflict ErrDuplicateTournPlayer) := by
  refine ⟨by decide, ⟨⟨1, "P1", 100, [⟨"P1", 100⟩]⟩, by decide, by decide, by decide⟩,
    by decide, by decide⟩


/-- How `announceTournament` answers, as a function of the deposit and of the
outcome of the store insert. -/
theorem announceTournament_cases (insert : Tournament → Option DbError) (tournamentID : Int)
    (deposit : Int) :
    (deposit ≤ 0 → announceTournament insert tournamentID deposit =
      (some (.conflict ErrInvalidTournamentDeposit), none)) ∧
    (0 < deposit → insert ⟨tournamentID, deposit, true⟩ = none →
      announceTournament insert tournamentID deposit = (some .ok, none)) ∧
    (0 < deposit → insert ⟨tournamentID, deposit, true⟩ = some .ErrAlreadyExists →
      announceTournament insert tournamentID deposit =
        (some (.conflict ErrDuplicateTournament), none)) ∧
    (0 < deposit → ∀ e, e ≠ .ErrAlreadyExists → insert ⟨tournamentID, deposit, true⟩ = some e →
      announceTournament insert tournamentID deposit = (none, none)) := by
  unfold announceTournament NewTournament
  refine ⟨?_, ?_, ?_, ?_⟩
  · intro h
    simp only [if_pos h]
  · intro h hi
    simp only [if_neg (not_le.mpr h), hi]
  · intro h hi
    simp only [if_neg (not_le.mpr h), hi]
  · intro h e hne hi
    simp only [if_neg (not_le.mpr h), hi]
    cases e with
    | ErrNotFound => rfl
    | ErrAlreadyExists => exact absurd rfl hne
    | other msg => rfl

/-- C18: the first three cases of the claim hold, the fourth does not.  When
the insert fails with a store error other than `ErrAlreadyExists` (here a lost
connection, for tournament 1 with deposit 100), `announceTournament` returns
neither a response nor an error: the `switch` never assigns the insert's error
to `err`, which is still nil, and `errors.WithMessage(nil, _)` is nil. -/
theorem announceTournament_store_fault :
    announceTournament (fun _ => some (.other "connection lost")) 1 100 = (none, none) ∧
    announceTournament (fun _ => none) 1 100 = (some .ok, none) ∧
    announceTournament (fun _ => some .ErrAlreadyExists) 1 100 =
      (some (.conflict ErrDuplicateTournament), none) ∧
    announceTournament (fun _ => some (.other "connection lost")) 1 0 =
      (some (.conflict ErrInvalidTournamentDeposit), none) := by
  refine ⟨by decide, by decide, by decide, by decide⟩

theorem NewTournWinner_ids {tp : TournPlayer} {prize : Int} {tw : TournWinner}
    (h : tp.NewTournWinner prize = .ok tw) :
    backerIDsOf tw.Backers = backerIDsOf tp.Backers := by
  unfold TournPlayer.NewTournWinner at h
  split_ifs at h with h0
  injection h with h
  subst h
  have hlen := splitPoints_length_nat prize tp.Backers.length
  exact zipBackers_ids Backer.PlayerID tp.Backers _ (by omega)

/-- The IDs the loop of `resultTroutnament` collects: the backer IDs of the
winners' entries, concatenated in iteration order; no step sorts them. -/
theorem collectWinners_ids (s : Store) (tournamentID : Int) :
    ∀ (winners : List (String × Int)) (tws : List TournWinner) (ids : List String)
      (tws' : List TournWinner) (ids' : List String),
    collectWinners s tournamentID winners tws ids = .ok (tws', ids') →
    ids' = ids ++ winnersBackerIDs s tournamentID winners := by
  intro winners
  induction winners with
  | nil =>
    intro tws ids tws' ids' h
    simp only [collectWinners] at h
    injection h with h
    simp only [Prod.mk.injEq] at h
    simp [winnersBackerIDs, h.2]
  | cons w rest ih =>
    intro tws ids tws' ids' h
    obtain ⟨playerID, prize⟩ := w
    unfold collectWinners at h
    cases hg : s.TournPlayerGet tournamentID playerID with
    | error e =>
      rw [hg] at h
      cases e <;> cases h
    | ok tp =>
      rw [hg] at h
      simp only at h
      cases hw : tp.NewTournWinner prize with
      | error e => rw [hw] at h; cases h
      | ok tw =>
        rw [hw] at h
        simp only at h
        rw [ih _ _ _ _ h, NewTournWinner_ids hw]
        simp only [winnersBackerIDs, hg, List.append_assoc]

theorem resultFetchIDs_eq (s : Store) (tournamentID : Int) (winners : List (String × Int))
    (ids : List String) (h : resultFetchIDs s tournamentID winners = some ids) :
    ids = winnersBackerIDs s tournamentID winners := by
  unfold resultFetchIDs at h
  cases hg : s.TournamentGet tournamentID with
  | error e => rw [hg] at h; cases h
  | ok t =>
    rw [hg] at h
    simp only at h
    rcases hm : t.MarkFinished with ⟨_ | e, t'⟩
    · rw [hm] at h
      simp only at h
      cases hc : collectWinners s tournamentID winners [] [] with
      | error r => rw [hc] at h; cases h
      | ok p =>
        obtain ⟨tws, ids'⟩ := p
        rw [hc] at h
        simp only [Option.some.injEq] at h
        subst h
        have := collectWinners_ids s tournamentID winners [] [] tws ids' hc
        simpa using this
    · rw [hm] at h
      cases h

/-- C20: the slice handed to `PlayerSelectForUpdate` does hold the backer IDs
of the named winners' entries, but it is not sorted: `playerIDs` is declared as
a `sort.StringSlice` and `Sort` is never called on it.  Player `P2` joins
tournament 1 with backer `P1`; resulting the tournament with winner `P2` hands
over `["P2", "P1"]`.  With two single-backer entries the order follows the
iteration order of the winners map: visiting `P2` before `P1` also gives
`["P2", "P1"]`. -/
theorem resultFetchIDs_not_ascending :
    (Tournament.mk 1 100 true).NewTournPlayer "P2" ["P1"] =
      .ok ⟨1, "P2", 100, [⟨"P2", 50⟩, ⟨"P1", 50⟩]⟩ ∧
    resultFetchIDs
      (Store.mk [⟨"P1", 0⟩, ⟨"P2", 0⟩] [⟨1, 100, true⟩]
        [⟨1, "P2", 100, [⟨"P2", 50⟩, ⟨"P1", 50⟩]⟩] [])
      1 [("P2", 10)] = some ["P2", "P1"] ∧
    resultFetchIDs
      (Store.mk [⟨"P1", 0⟩, ⟨"P2", 0⟩] [⟨1, 100, true⟩]
        [⟨1, "P1", 100, [⟨"P1", 100⟩]⟩, ⟨1, "P2", 100, [⟨"P2", 100⟩]⟩] [])
      1 [("P2", 10), ("P1", 10)] = some ["P2", "P1"] ∧
    ¬ ascendingIDs ["P2", "P1"] ∧ ascendingIDs ["P1", "P2"] := by
  refine ⟨by rfl, by decide, by decide, by decide, by decide⟩


/-! ## Settlement: deduction followed by pay-out, and pay-outs in either order -/

theorem wrap64_sub_add_cancel (a s : Int) : wrap64 (wrap64 (a - s) + s) = wrap64 a := by
  unfold wrap64
  omega

theorem wrap64_add_add_comm (a s t : Int) :
    wrap64 (wrap64 (a + s) + t) = wrap64 (wrap64 (a + t) + s) := by
  unfold wrap64
  omega

theorem creditBal_debitBal (k : String) (bs : List Backer) (bal : Int) (h : isInt64 bal) :
    creditBal k bs (debitBal k bs bal) = bal := by
  unfold creditBal debitBal
  by_cases hk : k ∈ backerIDsOf bs
  · rw [if_pos hk, if_pos hk, wrap64_sub_add_cancel, wrap64_eq h]
  · rw [if_neg hk, if_neg hk]

theorem creditBal_comm (k : String) (bs1 bs2 : List Backer) (bal : Int) :
    creditBal k bs2 (creditBal k bs1 bal) = creditBal k bs1 (creditBal k bs2 bal) := by
  unfold creditBal
  by_cases h1 : k ∈ backerIDsOf bs1 <;> by_cases h2 : k ∈ backerIDsOf bs2
  · simp only [if_pos h1, if_pos h2]
    exact wrap64_add_add_comm bal _ _
  · simp only [if_pos h1, if_neg h2]
  · simp only [if_neg h1, if_pos h2]
  · simp only [if_neg h1, if_neg h2]

theorem payoutCheck_payoutApply (bs bs' : List Backer) (m : PlayerMap) :
    payoutCheck (payoutApply bs' m) bs = payoutCheck m bs := by
  induction bs with
  | nil => rfl
  | cons b bs ih =>
    simp only [payoutCheck, lookup_payoutApply]
    cases hl : m.lookup b.PlayerID with
    | none => rfl
    | some p => simpa using ih

theorem payoutCheck_deductApply (bs bs' : List Backer) (m : PlayerMap) :
    payoutCheck (deductApply bs' m) bs = payoutCheck m bs := by
  induction bs with
  | nil => rfl
  | cons b bs ih =>
    simp only [payoutCheck, lookup_deductApply]
    cases hl : m.lookup b.PlayerID with
    | none => rfl
    | some p => simpa using ih

theorem PayoutPrize_of_present (tw : TournWinner) (m : PlayerMap)
    (h : ∀ b ∈ tw.Backers, m.lookup b.PlayerID ≠ none) :
    tw.PayoutPrize m = (none, payoutApply tw.Backers m) := by
  have hc : payoutCheck m tw.Backers = none := (payoutCheck_eq_none_iff m tw.Backers).mpr h
  unfold TournWinner.PayoutPrize
  rw [hc]

theorem zipBackers_self : ∀ bs : List Backer,
    List.zipWith (fun (b : Backer) pts => ({ PlayerID := b.PlayerID, Points := pts } : Backer))
      bs (bs.map Backer.Points) = bs := by
  intro bs
  induction bs with
  | nil => rfl
  | cons b bs ih =>
    simp only [List.map_cons, List.zipWith_cons_cons]
    rw [ih]

/-- Paying an entry's own fee back through `NewTournWinner` reproduces the
entry's backer list. -/
theorem NewTournWinner_of_fee {t : Tournament} {playerID : String} {backerIDs : List String}
    {tp : TournPlayer} (h : t.NewTournPlayer playerID backerIDs = .ok tp) :
    tp.NewTournWinner tp.Fee =
      .ok { TournamentID := tp.TournamentID, PlayerID := tp.PlayerID, Prize := tp.Fee,
            Backers := tp.Backers } := by
  obtain ⟨hn, _, _, htp⟩ := NewTournPlayer_ok h
  have hlen := splitPoints_length t.EntryDeposit ((backerIDs.length : Int) + 1) (by omega)
  have hpts := zipBackers_points (fun s : String => s) (playerID :: backerIDs)
    (splitPoints t.EntryDeposit ((backerIDs.length : Int) + 1))
    (by simp only [List.length_cons]; omega)
  have hfee : tp.Fee = t.EntryDeposit := by rw [htp]
  have hbl : (tp.Backers.length : Int) = (backerIDs.length : Int) + 1 := by
    have : tp.Backers.length = (tp.Backers.map Backer.Points).length := by simp
    rw [this, htp]
    simp only
    rw [hpts]
    exact hlen
  have hbp : tp.Backers.map Backer.Points =
      splitPoints t.EntryDeposit ((backerIDs.length : Int) + 1) := by
    rw [htp]
    exact hpts
  rw [NewTournWinner_ok tp tp.Fee (by rw [hfee]; omega), hfee, hbl, ← hbp, zipBackers_self]

theorem map_record_id (m : PlayerMap) (g : String → Int → Int)
    (h : ∀ e ∈ m, g e.1 e.2.Balance = e.2.Balance) :
    m.map (fun e => (e.1, ({ PlayerID := e.2.PlayerID, Balance := g e.1 e.2.Balance } : Player)))
      = m := by
  conv_rhs => rw [← List.map_id m]
  apply List.map_congr_left
  intro e he
  rw [h e he]
  rfl

/-- Deducting a backer list and paying the same list out again gives back the
map, when its balances are `int64` values. -/
theorem payoutApply_deductApply (bs : List Backer) (m : PlayerMap)
    (hm : ∀ e ∈ m, isInt64 e.2.Balance) :
    payoutApply bs (deductApply bs m) = m := by
  rw [payoutApply_eq, deductApply_eq, List.map_map]
  have := map_record_id m (fun k bal => creditBal k bs (debitBal k bs bal))
    (fun e he => creditBal_debitBal e.1 bs e.2.Balance (hm e he))
  simpa [Function.comp] using this

/-- C23: round trip.  For every entry `tp` returned by `NewTournPlayer`, the
result of `NewTournWinner tp.Fee` has a backer list identical to `tp.Backers`;
so for every player map (of `int64` balances) on which `tp.DeductDeposit`
succeeds, `PayoutPrize` of that result on the deducted map succeeds and gives
back the map as it was before the deduction. -/
theorem deduct_then_payout_restores (t : Tournament) (playerID : String)
    (backerIDs : List String) (tp : TournPlayer) (players : PlayerMap)
    (h : t.NewTournPlayer playerID backerIDs = .ok tp)
    (hm : ∀ e ∈ players, isInt64 e.2.Balance)
    (hok : (tp.DeductDeposit players).1 = none) :
    ∃ tw, tp.NewTournWinner tp.Fee = .ok tw ∧ tw.Backers = tp.Backers ∧
      tw.PayoutPrize (tp.DeductDeposit players).2 = (none, players) := by
  refine ⟨_, NewTournWinner_of_fee h, rfl, ?_⟩
  obtain ⟨hmap, hchk⟩ := DeductDeposit_of_ok hok
  rw [hmap]
  have hc0 : payoutCheck players tp.Backers = none := by
    rw [payoutCheck_eq_none_iff]
    intro b hb hl
    obtain ⟨p, hp, _⟩ := (not_offends_iff players b).mp (hchk b hb)
    rw [hl] at hp
    cases hp
  unfold TournWinner.PayoutPrize
  simp only
  rw [payoutCheck_deductApply, hc0, payoutApply_deductApply tp.Backers players hm]

theorem deduct_then_payout_restores_witness :
    (Tournament.mk 1 100 true).NewTournPlayer "P1" ["P2", "P3"] =
      .ok ⟨1, "P1", 100, [⟨"P1", 34⟩, ⟨"P2", 33⟩, ⟨"P3", 33⟩]⟩ ∧
    (∀ e ∈ ([("P1", ⟨"P1", 300⟩), ("P2", ⟨"P2", 33⟩), ("P3", ⟨"P3", 40⟩), ("P4", ⟨"P4", 0⟩)]
        : PlayerMap), isInt64 e.2.Balance) ∧
    ((TournPlayer.mk 1 "P1" 100 [⟨"P1", 34⟩, ⟨"P2", 33⟩, ⟨"P3", 33⟩]).DeductDeposit
      [("P1", ⟨"P1", 300⟩), ("P2", ⟨"P2", 33⟩), ("P3", ⟨"P3", 40⟩), ("P4", ⟨"P4", 0⟩)]) =
      (none, [("P1", ⟨"P1", 266⟩), ("P2", ⟨"P2", 0⟩), ("P3", ⟨"P3", 7⟩), ("P4", ⟨"P4", 0⟩)]) ∧
    ∃ tw, (TournPlayer.mk 1 "P1" 100 [⟨"P1", 34⟩, ⟨"P2", 33⟩, ⟨"P3", 33⟩]).NewTournWinner
        (TournPlayer.mk 1 "P1" 100 [⟨"P1", 34⟩, ⟨"P2", 33⟩, ⟨"P3", 33⟩]).Fee = .ok tw ∧
      tw.Backers = (TournPlayer.mk 1 "P1" 100 [⟨"P1", 34⟩, ⟨"P2", 33⟩, ⟨"P3", 33⟩]).Backers ∧
      tw.PayoutPrize ((TournPlayer.mk 1 "P1" 100 [⟨"P1", 34⟩, ⟨"P2", 33⟩, ⟨"P3", 33⟩]).DeductDeposit
        [("P1", ⟨"P1", 300⟩), ("P2", ⟨"P2", 33⟩), ("P3", ⟨"P3", 40⟩), ("P4", ⟨"P4", 0⟩)]).2 =
        (none,
          [("P1", ⟨"P1", 300⟩), ("P2", ⟨"P2", 33⟩), ("P3", ⟨"P3", 40⟩), ("P4", ⟨"P4", 0⟩)]) :=
  ⟨by rfl, by decide, by decide,
    deduct_then_payout_restores (Tournament.mk 1 100 true) "P1" ["P2", "P3"]
      ⟨1, "P1", 100, [⟨"P1", 34⟩, ⟨"P2", 33⟩, ⟨"P3", 33⟩]⟩
      [("P1", ⟨"P1", 300⟩), ("P2", ⟨"P2", 33⟩), ("P3", ⟨"P3", 40⟩), ("P4", ⟨"P4", 0⟩)]
      (by rfl) (by decide) (by decide)⟩

/-- C24: `PayoutPrize` is order independent: for any two results and any player
map that contains every backer of both, paying out the first and then the second
succeeds, paying out the second and then the first succeeds, and both orders
leave exactly the same map. -/
theorem PayoutPrize_order_independent (tw1 tw2 : TournWinner) (players : PlayerMap)
    (h1 : ∀ b ∈ tw1.Backers, players.lookup b.PlayerID ≠ none)
    (h2 : ∀ b ∈ tw2.Backers, players.lookup b.PlayerID ≠ none) :
    (tw1.PayoutPrize players).1 = none ∧
    (tw2.PayoutPrize (tw1.PayoutPrize players).2).1 = none ∧
    (tw2.PayoutPrize players).1 = none ∧
    (tw1.PayoutPrize (tw2.PayoutPrize players).2).1 = none ∧
    (tw2.PayoutPrize (tw1.PayoutPrize players).2).2 =
      (tw1.PayoutPrize (tw2.PayoutPrize players).2).2 := by
  have e1 := PayoutPrize_of_present tw1 players h1
  have e2 := PayoutPrize_of_present tw2 players h2
  have c1 : payoutCheck players tw1.Backers = none :=
    (payoutCheck_eq_none_iff players tw1.Backers).mpr h1
  have c2 : payoutCheck players tw2.Backers = none :=
    (payoutCheck_eq_none_iff players tw2.Backers).mpr h2
  have e12 : tw2.PayoutPrize (payoutApply tw1.Backers players) =
      (none, payoutApply tw2.Backers (payoutApply tw1.Backers players)) := by
    unfold TournWinner.PayoutPrize
    rw [payoutCheck_payoutApply, c2]
  have e21 : tw1.PayoutPrize (payoutApply tw2.Backers players) =
      (none, payoutApply tw1.Backers (payoutApply tw2.Backers players)) := by
    unfold TournWinner.PayoutPrize
    rw [payoutCheck_payoutApply, c1]
  rw [e1, e2]
  simp only
  rw [e12, e21]
  refine ⟨trivial, rfl, trivial, rfl, ?_⟩
  simp only
  rw [payoutApply_eq tw2.Backers, payoutApply_eq tw1.Backers players,
    payoutApply_eq tw1.Backers, payoutApply_eq tw2.Backers players,
    List.map_map, List.map_map]
  apply List.map_congr_left
  intro e _
  simp only [Function.comp, creditBal_comm e.1 tw1.Backers tw2.Backers]

theorem PayoutPrize_order_independent_witness :
    (∀ b ∈ (TournWinner.mk 1 "P1" 10 [⟨"P1", 5⟩, ⟨"P2", 5⟩]).Backers,
      PlayerMap.lookup b.PlayerID [("P1", ⟨"P1", 100⟩), ("P2", ⟨"P2", 9223372036854775805⟩)]
        ≠ none) ∧
    (∀ b ∈ (TournWinner.mk 2 "P2" 7 [⟨"P2", 7⟩]).Backers,
      PlayerMap.lookup b.PlayerID [("P1", ⟨"P1", 100⟩), ("P2", ⟨"P2", 9223372036854775805⟩)]
        ≠ none) ∧
    ((TournWinner.mk 2 "P2" 7 [⟨"P2", 7⟩]).PayoutPrize
        ((TournWinner.mk 1 "P1" 10 [⟨"P1", 5⟩, ⟨"P2", 5⟩]).PayoutPrize
          [("P1", ⟨"P1", 100⟩), ("P2", ⟨"P2", 9223372036854775805⟩)]).2).2 =
      ((TournWinner.mk 1 "P1" 10 [⟨"P1", 5⟩, ⟨"P2", 5⟩]).PayoutPrize
        ((TournWinner.mk 2 "P2" 7 [⟨"P2", 7⟩]).PayoutPrize
          [("P1", ⟨"P1", 100⟩), ("P2", ⟨"P2", 9223372036854775805⟩)]).2).2 :=
  ⟨by decide, by decide,
    (PayoutPrize_order_independent (TournWinner.mk 1 "P1" 10 [⟨"P1", 5⟩, ⟨"P2", 5⟩])
      (TournWinner.mk 2 "P2" 7 [⟨"P2", 7⟩])
      [("P1", ⟨"P1", 100⟩), ("P2", ⟨"P2", 9223372036854775805⟩)]
      (by decide) (by decide)).2.2.2.2⟩


/-! ## Conservation over the whole map -/

theorem lookup_of_mem_WF : ∀ (m : PlayerMap), m.WF → ∀ e ∈ m, m.lookup e.1 = some e.2 := by
  intro m
  induction m with
  | nil => intro _ e he; simp at he
  | cons a m ih =>
    intro hWF e he
    obtain ⟨k, p⟩ := a
    unfold PlayerMap.WF at hWF
    simp only [List.map_cons, List.nodup_cons] at hWF
    rcases List.mem_cons.mp he with rfl | he
    · simp [PlayerMap.lookup]
    · have hne : ¬ k = e.1 := by
        intro hk
        apply hWF.1
        rw [hk]
        exact List.mem_map_of_mem Prod.fst he
      simp only [PlayerMap.lookup, if_neg hne]
      exact ih hWF.2 e he

/-- In a map with distinct keys a key that is present is counted once. -/
theorem sum_indicator_key : ∀ (m : PlayerMap), m.WF → ∀ (k : String) (v : Int),
    k ∈ m.map Prod.fst → (m.map (fun e => if k = e.1 then v else 0)).sum = v := by
  intro m
  induction m with
  | nil => intro _ k v hk; simp at hk
  | cons a m ih =>
    intro hWF k v hk
    obtain ⟨k', p⟩ := a
    unfold PlayerMap.WF at hWF
    simp only [List.map_cons, List.nodup_cons] at hWF
    simp only [List.map_cons, List.mem_cons] at hk
    simp only [List.map_cons, List.sum_cons]
    by_cases hkk : k = k'
    · subst hkk
      have hrest : (m.map (fun e => if k = e.1 then v else 0)).sum = 0 := by
        apply List.sum_eq_zero
        intro x hx
        obtain ⟨e, he, rfl⟩ := List.mem_map.mp hx
        have : ¬ k = e.1 := by
          intro hke
          apply hWF.1
          rw [hke]
          exact List.mem_map_of_mem Prod.fst he
        simp only [if_neg this]
      rw [if_pos rfl, hrest, add_zero]
    · rcases hk with hk | hk
      · exact absurd hk hkk
      · rw [if_neg hkk, zero_add]
        exact ih hWF.2 k v hk

/-- Every point of a backer list whose players are all in the map is counted
under exactly one key. -/
theorem sum_pointsOf_keys (m : PlayerMap) (hWF : m.WF) : ∀ (bs : List Backer),
    (∀ b ∈ bs, b.PlayerID ∈ m.map Prod.fst) →
    (m.map (fun e => pointsOf e.1 bs)).sum = pointsSum bs := by
  intro bs
  induction bs with
  | nil =>
    intro _
    simp [pointsOf, pointsSum]
  | cons b bs ih =>
    intro hpres
    have h1 := sum_indicator_key m hWF b.PlayerID b.Points (hpres b (List.mem_cons_self _ _))
    have h2 := ih (fun b' hb' => hpres b' (List.mem_cons_of_mem _ hb'))
    have hfun : (fun e : String × Player => pointsOf e.1 (b :: bs)) =
        (fun e => (if b.PlayerID = e.1 then b.Points else 0) + pointsOf e.1 bs) := by
      funext e
      exact pointsOf_cons e.1 b bs
    rw [hfun, List.sum_map_add, h1, h2]
    simp [pointsSum]

theorem lookup_ne_none_mem_keys {m : PlayerMap} {k : String} (h : m.lookup k ≠ none) :
    k ∈ m.map Prod.fst := by
  by_contra hk
  exact h ((lookup_eq_none_iff k m).mpr hk)

/-- Without overflow the pay-out loop raises the sum of all balances by the sum
of the points paid. -/
theorem balanceSum_payoutApply (bs : List Backer) (m : PlayerMap) (hWF : m.WF)
    (hpres : ∀ b ∈ bs, m.lookup b.PlayerID ≠ none)
    (hno : ∀ e ∈ m, e.1 ∈ backerIDsOf bs → isInt64 (e.2.Balance + pointsOf e.1 bs)) :
    balanceSum (payoutApply bs m) = balanceSum m + pointsSum bs := by
  rw [payoutApply_eq]
  unfold balanceSum
  rw [List.map_map]
  have hcongr : m.map ((fun e : String × Player => e.2.Balance) ∘ (fun e =>
      (e.1, ({ PlayerID := e.2.PlayerID, Balance := creditBal e.1 bs e.2.Balance } : Player))))
      = m.map (fun e => e.2.Balance + pointsOf e.1 bs) := by
    apply List.map_congr_left
    intro e he
    simp only [Function.comp, creditBal]
    by_cases hk : e.1 ∈ backerIDsOf bs
    · rw [if_pos hk, wrap64_eq (hno e he hk)]
    · rw [if_neg hk, pointsOf_not_mem _ _ hk, add_zero]
  rw [hcongr, List.sum_map_add,
    sum_pointsOf_keys m hWF bs (fun b hb => lookup_ne_none_mem_keys (hpres b hb))]

theorem sum_map_neg_points (bs : List Backer) : ∀ m : PlayerMap,
    (m.map (fun e => -pointsOf e.1 bs)).sum = -(m.map (fun e => pointsOf e.1 bs)).sum := by
  intro m
  induction m with
  | nil => simp
  | cons a m ih => simp only [List.map_cons, List.sum_cons, ih, neg_add]

/-- Without overflow the deduction loop lowers the sum of all balances by the
sum of the points deducted. -/
theorem balanceSum_deductApply (bs : List Backer) (m : PlayerMap) (hWF : m.WF)
    (hpres : ∀ b ∈ bs, m.lookup b.PlayerID ≠ none)
    (hno : ∀ e ∈ m, e.1 ∈ backerIDsOf bs → isInt64 (e.2.Balance - pointsOf e.1 bs)) :
    balanceSum (deductApply bs m) = balanceSum m - pointsSum bs := by
  rw [deductApply_eq]
  unfold balanceSum
  rw [List.map_map]
  have hcongr : m.map ((fun e : String × Player => e.2.Balance) ∘ (fun e =>
      (e.1, ({ PlayerID := e.2.PlayerID, Balance := debitBal e.1 bs e.2.Balance } : Player))))
      = m.map (fun e => e.2.Balance + -pointsOf e.1 bs) := by
    apply List.map_congr_left
    intro e he
    simp only [Function.comp, debitBal]
    by_cases hk : e.1 ∈ backerIDsOf bs
    · rw [if_pos hk, wrap64_eq (hno e he hk)]
      ring
    · rw [if_neg hk, pointsOf_not_mem _ _ hk]
      ring
  rw [hcongr, List.sum_map_add, sum_map_neg_points,
    sum_pointsOf_keys m hWF bs (fun b hb => lookup_ne_none_mem_keys (hpres b hb))]
  ring


/-- C22: for every entry returned by `NewTournPlayer` on a tournament with
deposit `D` and every player map (distinct keys, `int64` balances) on which
`DeductDeposit` of that entry succeeds, the sum of all balances in the map
decreases by exactly `D`. -/
theorem DeductDeposit_sum (t : Tournament) (playerID : String) (backerIDs : List String)
    (tp : TournPlayer) (players : PlayerMap) (hD : isInt64 t.EntryDeposit)
    (h : t.NewTournPlayer playerID backerIDs = .ok tp) (hWF : players.WF)
    (hm : ∀ e ∈ players, isInt64 e.2.Balance)
    (hok : (tp.DeductDeposit players).1 = none) :
    balanceSum (tp.DeductDeposit players).2 = balanceSum players - t.EntryDeposit := by
  obtain ⟨hmap, hchk⟩ := DeductDeposit_of_ok hok
  obtain ⟨_, hnd, hpts⟩ := NewTournPlayer_backers hD h
  obtain ⟨hsum, _⟩ := NewTournPlayer_pointsSum hD h
  have hpres : ∀ b ∈ tp.Backers, players.lookup b.PlayerID ≠ none := by
    intro b hb hl
    obtain ⟨p, hp, _⟩ := (not_offends_iff players b).mp (hchk b hb)
    rw [hl] at hp
    cases hp
  rw [hmap, balanceSum_deductApply tp.Backers players hWF hpres, hsum]
  intro e he hk
  obtain ⟨b, hb, hbe⟩ := List.mem_map.mp hk
  obtain ⟨p, hp, hle⟩ := (not_offends_iff players b).mp (hchk b hb)
  have hl := lookup_of_mem_WF players hWF e he
  rw [← hbe, hp] at hl
  injection hl with hl
  have hpo := pointsOf_of_nodup tp.Backers hnd b hb
  have hb0 := hpts b hb
  have hbal := hm e he
  rw [← hbe, hpo, ← hl]
  unfold isInt64 at hbal ⊢
  rw [← hl] at hbal
  omega

theorem DeductDeposit_sum_witness :
    isInt64 100 ∧
    (Tournament.mk 1 100 true).NewTournPlayer "P1" ["P2", "P3"] =
      .ok ⟨1, "P1", 100, [⟨"P1", 34⟩, ⟨"P2", 33⟩, ⟨"P3", 33⟩]⟩ ∧
    balanceSum ((TournPlayer.mk 1 "P1" 100 [⟨"P1", 34⟩, ⟨"P2", 33⟩, ⟨"P3", 33⟩]).DeductDeposit
      [("P1", ⟨"P1", 300⟩), ("P2", ⟨"P2", 33⟩), ("P3", ⟨"P3", 40⟩), ("P4", ⟨"P4", 5⟩)]).2 =
      balanceSum [("P1", ⟨"P1", 300⟩), ("P2", ⟨"P2", 33⟩), ("P3", ⟨"P3", 40⟩), ("P4", ⟨"P4", 5⟩)]
        - 100 :=
  ⟨by decide, by rfl,
    DeductDeposit_sum (Tournament.mk 1 100 true) "P1" ["P2", "P3"]
      ⟨1, "P1", 100, [⟨"P1", 34⟩, ⟨"P2", 33⟩, ⟨"P3", 33⟩]⟩
      [("P1", ⟨"P1", 300⟩), ("P2", ⟨"P2", 33⟩), ("P3", ⟨"P3", 40⟩), ("P4", ⟨"P4", 5⟩)]
      (by decide) (by rfl) (by decide) (by decide) (by decide)⟩

/-- C21 (as amended): for every entry returned by `NewTournPlayer`, every
`int64` prize `≥ 0` and every player map (distinct keys, `int64` balances) that
contains all of the entry's backers, `NewTournWinner prize` succeeds,
`PayoutPrize` of its result succeeds and every share credited is `≥ 0`; and
provided no backer's balance plus its share exceeds the largest `int64`, the sum
of all balances in the map increases by exactly the prize. -/
theorem PayoutPrize_sum (t : Tournament) (playerID : String) (backerIDs : List String)
    (tp : TournPlayer) (prize : Int) (players : PlayerMap) (hD : isInt64 t.EntryDeposit)
    (h : t.NewTournPlayer playerID backerIDs = .ok tp) (hP : isInt64 prize) (h0 : 0 ≤ prize)
    (hWF : players.WF) (hm : ∀ e ∈ players, isInt64 e.2.Balance)
    (hpres : ∀ b ∈ tp.Backers, players.lookup b.PlayerID ≠ none) :
    ∃ tw, tp.NewTournWinner prize = .ok tw ∧ (tw.PayoutPrize players).1 = none ∧
      (∀ b ∈ tw.Backers, 0 ≤ b.Points) ∧
      ((∀ b ∈ tw.Backers, ∀ p, players.lookup b.PlayerID = some p →
          p.Balance + b.Points ≤ maxInt64) →
        balanceSum (tw.PayoutPrize players).2 = balanceSum players + prize) := by
  have hw := NewTournWinner_ok tp prize h0
  obtain ⟨hids, hnd, _⟩ := NewTournPlayer_backers hD h
  have hne : tp.Backers ≠ [] := by
    intro he
    rw [he] at hids
    simp [backerIDsOf] at hids
  have hsum := NewTournWinner_pointsSum tp prize hP hne
  have hpts := NewTournWinner_backers hP hw
  have hidw := NewTournWinner_ids hw
  refine ⟨_, hw, ?_, hpts, ?_⟩
  · have hpres' : ∀ b ∈ (List.zipWith
        (fun (b : Backer) pts => ({ PlayerID := b.PlayerID, Points := pts } : Backer))
        tp.Backers (splitPoints prize (tp.Backers.length : Int))),
        players.lookup b.PlayerID ≠ none := by
      intro b hb
      have hk : b.PlayerID ∈ backerIDsOf tp.Backers := by
        rw [← hidw]
        exact List.mem_map_of_mem Backer.PlayerID hb
      obtain ⟨b', hb', hbe⟩ := List.mem_map.mp hk
      rw [← hbe]
      exact hpres b' hb'
    rw [PayoutPrize_of_present _ players hpres']
  · intro hno
    simp only at hidw hpts hno ⊢
    have hpres' : ∀ b ∈ (List.zipWith
        (fun (b : Backer) pts => ({ PlayerID := b.PlayerID, Points := pts } : Backer))
        tp.Backers (splitPoints prize (tp.Backers.length : Int))),
        players.lookup b.PlayerID ≠ none := by
      intro b hb
      have hk : b.PlayerID ∈ backerIDsOf tp.Backers := by
        rw [← hidw]
        exact List.mem_map_of_mem Backer.PlayerID hb
      obtain ⟨b', hb', hbe⟩ := List.mem_map.mp hk
      rw [← hbe]
      exact hpres b' hb'
    have hndw : (backerIDsOf (List.zipWith
        (fun (b : Backer) pts => ({ PlayerID := b.PlayerID, Points := pts } : Backer))
        tp.Backers (splitPoints prize (tp.Backers.length : Int)))).Nodup := by
      rw [hidw]; exact hnd
    rw [PayoutPrize_of_present _ players hpres']
    simp only
    rw [balanceSum_payoutApply _ players hWF hpres', hsum]
    intro e he hk
    obtain ⟨b, hb, hbe⟩ := List.mem_map.mp hk
    have hl := lookup_of_mem_WF players hWF e he
    have hpo := pointsOf_of_nodup _ hndw b hb
    have hb0 := hpts b hb
    have hbal := hm e he
    have hmax := hno b hb e.2 (by rw [hbe]; exact hl)
    rw [← hbe, hpo]
    unfold isInt64 at hbal ⊢
    unfold maxInt64 at hmax
    omega

theorem PayoutPrize_sum_witness :
    isInt64 100 ∧ isInt64 500 ∧
    (Tournament.mk 1 100 true).NewTournPlayer "P1" ["P2", "P3"] =
      .ok ⟨1, "P1", 100, [⟨"P1", 34⟩, ⟨"P2", 33⟩, ⟨"P3", 33⟩]⟩ ∧
    ∃ tw, (TournPlayer.mk 1 "P1" 100 [⟨"P1", 34⟩, ⟨"P2", 33⟩, ⟨"P3", 33⟩]).NewTournWinner 500
        = .ok tw ∧
      (tw.PayoutPrize
        [("P1", ⟨"P1", 266⟩), ("P2", ⟨"P2", 0⟩), ("P3", ⟨"P3", 7⟩), ("P4", ⟨"P4", 5⟩)]).1 = none ∧
      (∀ b ∈ tw.Backers, 0 ≤ b.Points) ∧
      ((∀ b ∈ tw.Backers, ∀ p,
          PlayerMap.lookup b.PlayerID
            [("P1", ⟨"P1", 266⟩), ("P2", ⟨"P2", 0⟩), ("P3", ⟨"P3", 7⟩), ("P4", ⟨"P4", 5⟩)] = some p →
          p.Balance + b.Points ≤ maxInt64) →
        balanceSum (tw.PayoutPrize
          [("P1", ⟨"P1", 266⟩), ("P2", ⟨"P2", 0⟩), ("P3", ⟨"P3", 7⟩), ("P4", ⟨"P4", 5⟩)]).2 =
          balanceSum
            [("P1", ⟨"P1", 266⟩), ("P2", ⟨"P2", 0⟩), ("P3", ⟨"P3", 7⟩), ("P4", ⟨"P4", 5⟩)] + 500) :=
  ⟨by decide, by decide, by rfl,
    PayoutPrize_sum (Tournament.mk 1 100 true) "P1" ["P2", "P3"]
      ⟨1, "P1", 100, [⟨"P1", 34⟩, ⟨"P2", 33⟩, ⟨"P3", 33⟩]⟩ 500
      [("P1", ⟨"P1", 266⟩), ("P2", ⟨"P2", 0⟩), ("P3", ⟨"P3", 7⟩), ("P4", ⟨"P4", 5⟩)]
      (by decide) (by rfl) (by decide) (by decide) (by decide) (by decide) (by decide)⟩

/-- C21 as stated fails when a credit overflows: `P1` enters tournament 1
(deposit 1) alone; in a map where `P1` holds `2^63 - 1` the pay-out of prize 1
succeeds and leaves `P1` at `-2^63`, so the sum of all balances is `-2^63`, not
`2^63 - 1 + 1`. -/
theorem PayoutPrize_sum_counterexample :
    (Tournament.mk 1 1 true).NewTournPlayer "P1" [] = .ok ⟨1, "P1", 1, [⟨"P1", 1⟩]⟩ ∧
    (TournPlayer.mk 1 "P1" 1 [⟨"P1", 1⟩]).NewTournWinner 1 = .ok ⟨1, "P1", 1, [⟨"P1", 1⟩]⟩ ∧
    PlayerMap.WF [("P1", ⟨"P1", 9223372036854775807⟩)] ∧
    (∀ e ∈ ([("P1", ⟨"P1", 9223372036854775807⟩)] : PlayerMap), isInt64 e.2.Balance) ∧
    (∀ b ∈ (TournPlayer.mk 1 "P1" 1 [⟨"P1", 1⟩]).Backers,
      PlayerMap.lookup b.PlayerID [("P1", ⟨"P1", 9223372036854775807⟩)] ≠ none) ∧
    (TournWinner.mk 1 "P1" 1 [⟨"P1", 1⟩]).PayoutPrize [("P1", ⟨"P1", 9223372036854775807⟩)] =
      (none, [("P1", ⟨"P1", -9223372036854775808⟩)]) ∧
    balanceSum ((TournWinner.mk 1 "P1" 1 [⟨"P1", 1⟩]).PayoutPrize
      [("P1", ⟨"P1", 9223372036854775807⟩)]).2 ≠
      balanceSum [("P1", ⟨"P1", 9223372036854775807⟩)] + 1 := by
  refine ⟨by rfl, by rfl, by decide, by decide, by decide, by decide, by decide⟩

end Sts
